import Mathlib

set_option maxHeartbeats 1000000
set_option maxRecDepth 8000

/-!
Shallow embedding of the Obsidian "Health Connect via Home Assistant" plugin
(final iteration of `src/main.ts`, with datatypes from `src/types.ts`).

Strings are modelled as `List Char`.  JS objects keyed by date strings are
modelled as association lists in insertion order (JS iterates non-integer
string keys in insertion order); objects keyed by numeric timestamps are
association lists whose enumeration sorts the keys ascending (JS iterates
integer-like keys in ascending numeric order).  Rational numbers stand in
for JS numbers; the host's number-to-string conversion and time formatting
(`moment`) are context parameters.
-/

namespace HassHealth

/-- Convert a string literal to the character-list representation used throughout. -/
def str (s : String) : List Char := s.toList

abbrev Key := List Char

/-- First-match lookup in an association list (models a JS object property read). -/
def lookupA {β : Type} (k : Key) : List (Key × β) → Option β
  | [] => none
  | (k', v) :: rest => if k' = k then some v else lookupA k rest

/-- Write a property in an association list: overwrite the first entry with this
key in place, or append a new entry (models a JS object property write). -/
def setA {β : Type} (k : Key) (v : β) : List (Key × β) → List (Key × β)
  | [] => [(k, v)]
  | (k', v') :: rest => if k' = k then (k, v) :: rest else (k', v') :: setA k v rest

/-!  ### The section rewriter (`replaceSection`, main.ts lines 307-330)

The source builds the regex
`(^#+ ${heading_regex}[ ]*\n)[^#]*((\n#)|($(?![\r\n])))` with the `m` flag
and performs one `String.replace` with replacement `` `$1${escaped}$2` ``.
We embed the match semantics of that specific pattern: the heading name is
treated as literal text (the configured heading names contain no regex
metacharacters), `^` matches at offset 0 or after a line terminator, the
greedy `[^#]*` with backtracking accepts the body exactly when the first
`#` after the heading line is preceded by a newline (group 3) or the body
runs to the end of the input (group 4, `$` with the lookahead restricting
it to true end of input). -/

/-- Does the multiline anchor `^` match at offset `i` of `content`? -/
def lineStartAt (content : List Char) : Nat → Bool
  | 0 => true
  | j + 1 =>
    match content[j]? with
    | some c => c == '\n' || c == '\r'
    | none => false

/-- The pieces of one successful match of the section regex:
capture group 1 (the heading line), the body matched by `[^#]*`,
capture group 2 (`"\n#"`, or `[]` when the `$` branch matched),
and the input remaining after the match. -/
structure SecM where
  g1 : List Char
  body : List Char
  g2 : List Char
  rest : List Char
deriving DecidableEq, Repr

/-- Match `[^#]*((\n#)|($(?![\r\n])))` against `t5` (the input after the
heading line), returning body, group 2 and the remaining input. -/
def matchTail (t5 : List Char) : Option (List Char × List Char × List Char) :=
  match t5.dropWhile (· ≠ '#') with
  | [] => some (t5.takeWhile (· ≠ '#'), [], [])
  | '#' :: q' =>
    match (t5.takeWhile (· ≠ '#')).reverse with
    | '\n' :: rb => some (rb.reverse, ['\n', '#'], q')
    | _ => none
  | _ :: _ => none

/-- Match the heading-line part of the pattern (`^#+ H[ ]*\n`, capture
group 1) at offset `i`, returning the captured heading line and the input
after it. -/
def matchHead (H content : List Char) (i : Nat) : Option (List Char × List Char) :=
  if lineStartAt content i then
    if (content.drop i).takeWhile (· = '#') = [] then none
    else
      match (content.drop i).dropWhile (· = '#') with
      | ' ' :: t2 =>
        if t2.take H.length = H then
          match (t2.drop H.length).dropWhile (· = ' ') with
          | '\n' :: t5 =>
            some ((content.drop i).takeWhile (· = '#') ++
                  ' ' :: (H ++ (t2.drop H.length).takeWhile (· = ' ') ++ ['\n']), t5)
          | _ => none
        else none
      | _ => none
  else none

/-- Match the whole section regex at offset `i` of `content`. -/
def matchAt (H content : List Char) (i : Nat) : Option SecM :=
  match matchHead H content i with
  | none => none
  | some (g1, t5) =>
    match matchTail t5 with
    | some (b, g2, r) => some ⟨g1, b, g2, r⟩
    | none => none

/-- Scan candidate start offsets in order (leftmost match wins). -/
def scanIdx (H content : List Char) : List Nat → Option (Nat × SecM)
  | [] => none
  | i :: is =>
    match matchAt H content i with
    | some m => some (i, m)
    | none => scanIdx H content is

/-- The leftmost match of the section regex in `content`. -/
def findSection (H content : List Char) : Option (Nat × SecM) :=
  scanIdx H content (List.range (content.length + 1))

/-- The call `new_section_content.replace("$", "$$")` from the source.
In JavaScript the replacement string `"$$"` is itself subject to
`GetSubstitution` and denotes a single literal `$`, so this call replaces
the first `$` of the input by `$` — it is the identity. -/
def escapeDollarCall : List Char → List Char
  | [] => []
  | c :: rest => if c = '$' then c :: rest else c :: escapeDollarCall rest

/-- Data available to `GetSubstitution` when expanding the replacement string. -/
structure Groups where
  g1 : List Char
  g2 : List Char
  g3 : List Char
  g4 : List Char
  whole : List Char
  pre : List Char
  suf : List Char
deriving DecidableEq, Repr

/-- JavaScript `GetSubstitution` over the replacement string: `$$` is a
literal dollar, `$&` the whole match, a backquote-dollar the text before the
match, a quote-dollar the text after it, `$1`-`$4` the capture groups (the
pattern has four), and the two-digit forms `$01`-`$04` are also capture
references (`$nn` with `01 ≤ nn ≤ m`).  Any other `$`-sequence is kept
literally: `$5`-`$9` and two-digit indices above 4 fall back to their
one-digit reading, which is out of range, and `$0`/`$00` are never capture
references. -/
def expandTemplate (g : Groups) : List Char → List Char
  | [] => []
  | [c] => [c]
  | [c, c2] =>
    if c = '$' then
      if c2 = '$' then ['$']
      else if c2 = '&' then g.whole
      else if c2 = Char.ofNat 96 then g.pre
      else if c2 = Char.ofNat 39 then g.suf
      else if c2 = '1' then g.g1
      else if c2 = '2' then g.g2
      else if c2 = '3' then g.g3
      else if c2 = '4' then g.g4
      else ['$', c2]
    else c :: expandTemplate g [c2]
  | c :: c2 :: c3 :: rs =>
    if c = '$' then
      if c2 = '$' then '$' :: expandTemplate g (c3 :: rs)
      else if c2 = '&' then g.whole ++ expandTemplate g (c3 :: rs)
      else if c2 = Char.ofNat 96 then g.pre ++ expandTemplate g (c3 :: rs)
      else if c2 = Char.ofNat 39 then g.suf ++ expandTemplate g (c3 :: rs)
      else if c2 = '1' then g.g1 ++ expandTemplate g (c3 :: rs)
      else if c2 = '2' then g.g2 ++ expandTemplate g (c3 :: rs)
      else if c2 = '3' then g.g3 ++ expandTemplate g (c3 :: rs)
      else if c2 = '4' then g.g4 ++ expandTemplate g (c3 :: rs)
      else if c2 = '0' then
        if c3 = '1' then g.g1 ++ expandTemplate g rs
        else if c3 = '2' then g.g2 ++ expandTemplate g rs
        else if c3 = '3' then g.g3 ++ expandTemplate g rs
        else if c3 = '4' then g.g4 ++ expandTemplate g rs
        else '$' :: expandTemplate g (c2 :: c3 :: rs)
      else '$' :: expandTemplate g (c2 :: c3 :: rs)
    else c :: expandTemplate g (c2 :: c3 :: rs)

/-- The `Groups` record for a match `m` found at offset `i` of `content`. -/
def groupsOf (content : List Char) (i : Nat) (m : SecM) : Groups :=
  { g1 := m.g1
    g2 := m.g2
    g3 := if m.g2 = ['\n', '#'] then ['\n', '#'] else []
    g4 := []
    whole := m.g1 ++ m.body ++ m.g2
    pre := content.take i
    suf := m.rest }

/-- The text transformation performed by `replaceSection` (main.ts 316-326):
test the regex, and if it matches replace the (leftmost) match with the
expansion of `` `$1${new_section_content_escaped}$2` ``. -/
def replaceSectionText (H content newBody : List Char) : List Char :=
  match findSection H content with
  | none => content
  | some (i, m) =>
    content.take i ++
    expandTemplate (groupsOf content i m)
      ('$' :: '1' :: (escapeDollarCall newBody ++ ['$', '2'])) ++
    m.rest

/-- Does the heading-line part of the pattern (`^#+ H[ ]*\n`) match at offset `i`? -/
def headingLineAt (H content : List Char) (i : Nat) : Bool :=
  (matchHead H content i).isSome

/-- A body is dollar-safe when no `$` is final and no `$` starts a sequence
that `GetSubstitution` treats specially: `$` followed by a special character,
or the two-digit capture form `$0` followed by a digit `1`-`4`. -/
def isDollarSpecial (c : Char) : Bool :=
  c = '$' || c = '&' || c = Char.ofNat 96 || c = Char.ofNat 39 ||
  c = '1' || c = '2' || c = '3' || c = '4'

/-- After a `$`, does `c2` followed by the remaining characters form a
two-digit capture reference `$01`-`$04`? -/
def zeroCapture (c2 : Char) : List Char → Bool
  | [] => false
  | c3 :: _ => c2 = '0' && (c3 = '1' || c3 = '2' || c3 = '3' || c3 = '4')

def dollarSafe : List Char → Bool
  | [] => true
  | [c] => !(c == '$')
  | c :: c2 :: rest =>
    if c = '$' then
      !isDollarSpecial c2 && !zeroCapture c2 rest && dollarSafe (c2 :: rest)
    else dollarSafe (c2 :: rest)

/-- Substring test (used only to state counterexamples). -/
def hasSub (pat : List Char) : List Char → Bool
  | [] => pat.isEmpty
  | c :: rest => ((c :: rest).take pat.length == pat) || hasSub pat rest

/-! ### Lemmas about the section rewriter -/

theorem matchTail_decomp {t5 b g2 r : List Char}
    (h : matchTail t5 = some (b, g2, r)) : t5 = b ++ g2 ++ r := by
  unfold matchTail at h
  split at h
  next hd =>
    simp only [Option.some.injEq, Prod.mk.injEq] at h
    obtain ⟨rfl, rfl, rfl⟩ := h
    have hsplit := List.takeWhile_append_dropWhile (fun c => c ≠ '#') t5
    rw [hd] at hsplit
    simpa using hsplit.symm
  next q' hd =>
    split at h
    next rb hrev =>
      simp only [Option.some.injEq, Prod.mk.injEq] at h
      obtain ⟨rfl, rfl, rfl⟩ := h
      have hsplit := List.takeWhile_append_dropWhile (fun c => c ≠ '#') t5
      rw [hd] at hsplit
      have hp : t5.takeWhile (fun c => c ≠ '#') = rb.reverse ++ ['\n'] := by
        calc t5.takeWhile (fun c => c ≠ '#')
            = (t5.takeWhile (fun c => c ≠ '#')).reverse.reverse := by
              rw [List.reverse_reverse]
          _ = ('\n' :: rb).reverse := by rw [hrev]
          _ = rb.reverse ++ ['\n'] := by simp
      rw [hp] at hsplit
      simpa using hsplit.symm
    next => exact absurd h (by simp)
  next c q' hne hd => exact absurd h (by simp)

theorem matchHead_decomp {H content : List Char} {i : Nat} {g1 t5 : List Char}
    (h : matchHead H content i = some (g1, t5)) :
    content.drop i = g1 ++ t5 := by
  unfold matchHead at h
  split at h
  case isFalse => exact absurd h (by simp)
  case isTrue hls =>
  split at h
  case isTrue => exact absurd h (by simp)
  case isFalse hh =>
  split at h
  case h_2 => exact absurd h (by simp)
  case h_1 t2 hd2 =>
  split at h
  case isFalse => exact absurd h (by simp)
  case isTrue htake =>
  split at h
  case h_2 => exact absurd h (by simp)
  case h_1 t5' hd4 =>
  simp only [Option.some.injEq, Prod.mk.injEq] at h
  obtain ⟨rfl, rfl⟩ := h
  obtain ⟨A, hA⟩ : ∃ A, (content.drop i).takeWhile (· = '#') = A := ⟨_, rfl⟩
  obtain ⟨T3, hT3⟩ : ∃ T3, t2.drop H.length = T3 := ⟨_, rfl⟩
  have e0 : content.drop i = A ++ (' ' :: t2) := by
    conv_lhs =>
      rw [← List.takeWhile_append_dropWhile (· = '#') (content.drop i)]
    rw [hd2, hA]
  have e1 : t2 = H ++ T3 := by
    conv_lhs => rw [← List.take_append_drop H.length t2]
    rw [htake, hT3]
  have e2 : T3 = T3.takeWhile (· = ' ') ++ ('\n' :: t5') := by
    conv_lhs =>
      rw [← List.takeWhile_append_dropWhile (· = ' ') T3]
    rw [← hT3, hd4]
  rw [hA, hT3, e0]
  conv_lhs => rw [e1, e2]
  simp

theorem matchAt_decomp {H content : List Char} {i : Nat} {m : SecM}
    (h : matchAt H content i = some m) :
    content.drop i = m.g1 ++ m.body ++ m.g2 ++ m.rest := by
  unfold matchAt at h
  split at h
  case h_1 => exact absurd h (by simp)
  case h_2 g1 t5 hh =>
  split at h
  case h_2 => exact absurd h (by simp)
  case h_1 b g2 r hmt =>
  simp only [Option.some.injEq] at h
  subst h
  simp only
  rw [matchHead_decomp hh, matchTail_decomp hmt]
  simp

theorem scanIdx_matchAt {H content : List Char} {l : List Nat} {i : Nat} {m : SecM}
    (h : scanIdx H content l = some (i, m)) : matchAt H content i = some m := by
  induction l with
  | nil => exact absurd h (by simp [scanIdx])
  | cons j js ih =>
    unfold scanIdx at h
    split at h
    next m' hm =>
      simp only [Option.some.injEq, Prod.mk.injEq] at h
      obtain ⟨rfl, rfl⟩ := h
      exact hm
    next => exact ih h

theorem findSection_decomp {H content : List Char} {i : Nat} {m : SecM}
    (h : findSection H content = some (i, m)) :
    content = content.take i ++ (m.g1 ++ m.body ++ m.g2 ++ m.rest) := by
  have hd := matchAt_decomp (scanIdx_matchAt h)
  conv_lhs => rw [← List.take_append_drop i content]
  rw [hd]

theorem escapeDollarCall_eq (s : List Char) : escapeDollarCall s = s := by
  induction s with
  | nil => rfl
  | cons c rest ih =>
    unfold escapeDollarCall
    split
    · rfl
    · rw [ih]

theorem expandT_other (g : Groups) (c : Char) (t : List Char) (hc : ¬ c = '$') :
    expandTemplate g (c :: t) = c :: expandTemplate g t := by
  cases t with
  | nil => rfl
  | cons c2 rs =>
    cases rs with
    | nil =>
      simp only [expandTemplate]
      rw [if_neg hc]
    | cons c3 rs2 =>
      simp only [expandTemplate]
      rw [if_neg hc]

theorem expandT_dollar_other (g : Groups) (c2 : Char) (rs : List Char)
    (hs : isDollarSpecial c2 = false) (hz : zeroCapture c2 rs = false) :
    expandTemplate g ('$' :: c2 :: rs) = '$' :: expandTemplate g (c2 :: rs) := by
  simp only [isDollarSpecial, Bool.or_eq_false_iff, decide_eq_false_iff_not] at hs
  obtain ⟨⟨⟨⟨⟨⟨⟨h1, h2⟩, h3⟩, h4⟩, h5⟩, h6⟩, h7⟩, h8⟩ := hs
  cases rs with
  | nil =>
    simp only [expandTemplate]
    rw [if_pos trivial, if_neg h1, if_neg h2, if_neg h3, if_neg h4, if_neg h5,
        if_neg h6, if_neg h7, if_neg h8]
  | cons c3 rs2 =>
    by_cases h0 : c2 = '0'
    · subst h0
      simp only [zeroCapture, Bool.and_eq_false_iff, Bool.or_eq_false_iff,
        decide_eq_false_iff_not] at hz
      rcases hz with hz | ⟨⟨⟨hz1, hz2⟩, hz3⟩, hz4⟩
      · simp at hz
      · simp only [expandTemplate]
        rw [if_pos trivial, if_neg h1, if_neg h2, if_neg h3, if_neg h4,
            if_neg h5, if_neg h6, if_neg h7, if_neg h8, if_pos trivial,
            if_neg hz1, if_neg hz2, if_neg hz3, if_neg hz4]
    · simp only [expandTemplate]
      rw [if_pos trivial, if_neg h1, if_neg h2, if_neg h3, if_neg h4, if_neg h5,
          if_neg h6, if_neg h7, if_neg h8, if_neg h0]

theorem expandT_dollar1 (g : Groups) (t : List Char) :
    expandTemplate g ('$' :: '1' :: t) = g.g1 ++ expandTemplate g t := by
  cases t with
  | nil => simp [expandTemplate]
  | cons c3 rs2 =>
    simp only [expandTemplate]
    rw [if_pos trivial, if_neg (by decide), if_neg (by decide), if_neg (by decide),
        if_neg (by decide), if_pos trivial]

theorem expandT_dollar2 (g : Groups) (t : List Char) :
    expandTemplate g ('$' :: '2' :: t) = g.g2 ++ expandTemplate g t := by
  cases t with
  | nil => simp [expandTemplate]
  | cons c3 rs2 =>
    simp only [expandTemplate]
    rw [if_pos trivial, if_neg (by decide), if_neg (by decide), if_neg (by decide),
        if_neg (by decide), if_neg (by decide), if_pos trivial]

theorem expand_safe_append (g : Groups) :
    ∀ b : List Char, dollarSafe b = true →
      expandTemplate g (b ++ ['$', '2']) = b ++ g.g2 := by
  intro b
  induction b with
  | nil =>
    intro _
    rw [List.nil_append, expandT_dollar2]
    simp [expandTemplate]
  | cons c rest ih =>
    intro hb
    cases rest with
    | nil =>
      have hc : ¬ c = '$' := by simpa [dollarSafe] using hb
      rw [List.cons_append, List.nil_append, expandT_other g c _ hc,
          expandT_dollar2]
      simp [expandTemplate]
    | cons c2 rs =>
      by_cases hc : c = '$'
      · subst hc
        have hb' : (isDollarSpecial c2 = false ∧ zeroCapture c2 rs = false) ∧
            dollarSafe (c2 :: rs) = true := by
          simpa [dollarSafe] using hb
        obtain ⟨⟨hspec, hzc⟩, hsafe⟩ := hb'
        have hz2 : zeroCapture c2 (rs ++ ['$', '2']) = false := by
          cases rs with
          | nil => simp [zeroCapture]
          | cons c3 rs2 => simpa [zeroCapture] using hzc
        rw [List.cons_append, List.cons_append,
            expandT_dollar_other g c2 _ hspec hz2,
            show c2 :: (rs ++ ['$', '2']) = (c2 :: rs) ++ ['$', '2'] from rfl,
            ih hsafe]
        simp
      · have hsafe : dollarSafe (c2 :: rs) = true := by
          simpa [dollarSafe, hc] using hb
        rw [List.cons_append, expandT_other g c _ hc,
            ih hsafe]
        simp

theorem matchAt_headingLineAt {H content : List Char} {i : Nat} {m : SecM}
    (h : matchAt H content i = some m) : headingLineAt H content i = true := by
  unfold matchAt at h
  unfold headingLineAt
  split at h
  case h_1 => exact absurd h (by simp)
  case h_2 g1 t5 hh => rw [hh]; rfl

theorem matchHead_none_oob {H content : List Char} {i : Nat}
    (h : content.length ≤ i) : matchHead H content i = none := by
  unfold matchHead
  have hdrop : content.drop i = [] := List.drop_eq_nil_of_le h
  split
  · rw [hdrop]
    simp
  · rfl

theorem matchAt_none_oob {H content : List Char} {i : Nat}
    (h : content.length ≤ i) : matchAt H content i = none := by
  unfold matchAt
  rw [matchHead_none_oob h]

/-!  ### Claims about the section rewriter -/

/-- Claim C7: for every document and heading name, if no line of the document
matches the named heading, `rewriteSection` is a no-op — the document is left
byte-for-byte unchanged, no error is raised, and the new body is not appended
anywhere. -/
theorem missing_heading_noop (H content newBody : List Char)
    (h : ∀ i, i < content.length → headingLineAt H content i = false) :
    replaceSectionText H content newBody = content := by
  have hma : ∀ i, matchAt H content i = none := by
    intro i
    rcases Nat.lt_or_ge i content.length with hi | hi
    · cases hm : matchAt H content i with
      | none => rfl
      | some m => exact absurd (matchAt_headingLineAt hm) (by simp [h i hi])
    · exact matchAt_none_oob hi
  have hscan : ∀ l, scanIdx H content l = none := by
    intro l
    induction l with
    | nil => rfl
    | cons j js ih =>
      unfold scanIdx
      rw [hma j]
      exact ih
  unfold replaceSectionText findSection
  rw [hscan]

theorem missing_heading_noop_witness :
    (∀ i, i < (str "hello\nworld\n").length →
        headingLineAt (str "Heartrate") (str "hello\nworld\n") i = false) ∧
    replaceSectionText (str "Heartrate") (str "hello\nworld\n") (str "x")
      = str "hello\nworld\n" :=
  ⟨by decide, missing_heading_noop _ _ _ (by decide)⟩

/-- Claim C2 (amended): when `rewriteSection` finds a line matching the named
heading, and the new body is dollar-safe (no `$` is final, followed by a
replacement-special character, or followed by a two-digit capture reference
`01`-`04` — the source's `$`-escaping is a no-op, see
`escapeDollarCall`), the result differs from the original only strictly
between the matched heading line and the boundary (the next heading line or
end of document): the prefix, the heading line, the boundary and the suffix
are preserved byte-for-byte and the new body appears literally. -/
theorem section_rewrite_frame_dollar_safe (H content newBody : List Char)
    (i : Nat) (m : SecM)
    (hsafe : dollarSafe newBody = true)
    (hfind : findSection H content = some (i, m)) :
    content = content.take i ++ (m.g1 ++ m.body ++ m.g2 ++ m.rest) ∧
    replaceSectionText H content newBody
      = content.take i ++ (m.g1 ++ newBody ++ m.g2 ++ m.rest) := by
  constructor
  · exact findSection_decomp hfind
  · unfold replaceSectionText
    rw [hfind, escapeDollarCall_eq]
    dsimp only
    rw [expandT_dollar1, expand_safe_append _ _ hsafe]
    simp [groupsOf, List.append_assoc]

theorem section_rewrite_frame_witness :
    dollarSafe (str "a$b") = true ∧
    findSection (str "H") (str "# H\nold\n# N\nx")
      = some (0, ⟨str "# H\n", str "old", str "\n#", str " N\nx"⟩) ∧
    (str "# H\nold\n# N\nx"
        = (str "# H\nold\n# N\nx").take 0 ++
          (str "# H\n" ++ str "old" ++ str "\n#" ++ str " N\nx") ∧
     replaceSectionText (str "H") (str "# H\nold\n# N\nx") (str "a$b")
        = (str "# H\nold\n# N\nx").take 0 ++
          (str "# H\n" ++ str "a$b" ++ str "\n#" ++ str " N\nx")) :=
  ⟨by decide, by decide,
   section_rewrite_frame_dollar_safe (str "H") (str "# H\nold\n# N\nx")
     (str "a$b") 0 ⟨str "# H\n", str "old", str "\n#", str " N\nx"⟩
     (by decide) (by decide)⟩

/-- Claim C2 counterexample: for the new body `"a$"` the bytes after the
boundary are not preserved — the original document ends with the next heading
line `"\n# N\nx"`, but the rewritten document does not contain that suffix
(the trailing `$` of the body merges with the `$2` of the replacement
template into a literal `$2`, and the `\n#` boundary is dropped). -/
theorem section_rewrite_frame_cex :
    replaceSectionText (str "H") (str "# H\nold\n# N\nx") (str "a$")
      = str "# H\na$2 N\nx" ∧
    (str "\n# N\nx").isSuffixOf
      (replaceSectionText (str "H") (str "# H\nold\n# N\nx") (str "a$"))
      = false := by
  decide

/-- The two-digit capture form of `GetSubstitution`: a body containing `$01`
is not dollar-safe, and the rewriter substitutes capture group 1 (the
matched heading line) for the `$01`, instead of inserting it literally. -/
theorem zero_capture_substituted :
    dollarSafe (str "a$01b") = false ∧
    replaceSectionText (str "H") (str "# H\nold\n") (str "a$01b")
      = str "# H\na# H\nb" := by
  decide

/-- Claim C4: the source's escaping call `.replace("$", "$$")` is a no-op
(JS string replacement interprets `$$` as one literal `$`, and only the
first occurrence is targeted anyway), so a new body containing two `$1`
sequences is not inserted literally: each `$1` is substituted by capture
group 1 (the heading line).  Evaluating the code on the failing input:
rewriting section `H` of `"# H\nold\n"` with new body `"$1$1"` yields
`"# H\n# H\n# H\n"`, and the body appears nowhere in the result. -/
theorem dollar_escape_noop_eval :
    replaceSectionText (str "H") (str "# H\nold\n") (str "$1$1")
      = str "# H\n# H\n# H\n" ∧
    hasSub (str "$1$1")
      (replaceSectionText (str "H") (str "# H\nold\n") (str "$1$1")) = false := by
  decide

/-!  ### Reading model (`src/types.ts`)

Only the fields the plugin code reads are carried; the source records also
hold `format`, `startTime`, `endTime` and similar fields that no code path
touches.  JS numbers are modelled as rationals. -/

structure CaloriesDay where
  energy : ℚ
deriving DecidableEq, Repr

structure HydrationDay where
  volume : ℚ
deriving DecidableEq, Repr

structure StepDay where
  count : ℚ
deriving DecidableEq, Repr

structure HeartRateReading where
  bpm : ℚ
  time : ℚ
deriving DecidableEq, Repr

structure ExerciseSession where
  duration : ℚ
  durationFormatted : List Char
  exerciseName : List Char
deriving DecidableEq, Repr

structure ExerciseDay where
  sessions : List ExerciseSession
  totalDuration : ℚ
deriving DecidableEq, Repr

structure SleepSession where
  duration : ℚ
deriving DecidableEq, Repr

structure SleepStage where
  stageFormat : List Char
  sessions : List SleepSession
deriving DecidableEq, Repr

structure SleepDay where
  stage : List SleepStage
deriving DecidableEq, Repr

/-- A weight day or blood-oxygen day: timestamp-keyed numeric readings. -/
abbrev TimeSeries := List (Nat × ℚ)

abbrev HeartRateReadingDay := List (Nat × HeartRateReading)

/-!  ### Settings and context -/

/-- The plugin settings (the `HassConnectSettings` interface). -/
structure Settings where
  token : List Char
  instance_uri : List Char
  sensor : List Char
  create_daily_notes : Bool
  format_times : Bool
  tables_subfolder : List Char
  calorie_field : List Char
  exercise_field : List Char
  hydration_field : List Char
  steps_field : List Char
  weight_field : List Char
  total_sleep_field : List Char
  heartrate_section : List Char
  blood_oxygen_section : List Char
  exercise_list_section : List Char
  summary_section : List Char

/-- Host environment of a run: the settings, the host's number-to-string
conversion (JS `String(x)`), the host's time formatting
(`moment(t,"X").format(...)`, keyed by the `format_times` flag), and
whether the host storage layer can create the note for a given date
(`createDailyNote` / `vault.create` succeeding). -/
structure Ctx where
  st : Settings
  numStr : ℚ → List Char
  renderT : Bool → Nat → List Char
  createOk : List Char → Bool

/-- `renderTime` (main.ts 367-370): format choice by `format_times`,
formatting itself delegated to the host. -/
def renderTime (ctx : Ctx) (t : Nat) : List Char :=
  ctx.renderT ctx.st.format_times t

/-!  Rational arithmetic helpers.  Mathlib's `+` and `/` on `ℚ` do not
reduce under kernel evaluation, so the embedding uses `mkRat`-based
equivalents (proved equal to the Mathlib operations below); the source only
ever divides by the constant 60. -/

def qAdd (a b : ℚ) : ℚ := mkRat (a.num * b.den + b.num * a.den) (a.den * b.den)

def qDiv60 (a : ℚ) : ℚ := mkRat a.num (a.den * 60)

theorem qAdd_eq (a b : ℚ) : qAdd a b = a + b := by
  unfold qAdd
  rw [Rat.mkRat_eq_div]
  have ha : (a.den : ℚ) ≠ 0 := Nat.cast_ne_zero.mpr a.den_nz
  have hb : (b.den : ℚ) ≠ 0 := Nat.cast_ne_zero.mpr b.den_nz
  conv_rhs => rw [← Rat.num_div_den a, ← Rat.num_div_den b]
  rw [div_add_div _ _ ha hb]
  push_cast
  ring_nf

theorem qDiv60_eq (a : ℚ) : qDiv60 a = a / 60 := by
  unfold qDiv60
  rw [Rat.mkRat_eq_div]
  have ha : (a.den : ℚ) ≠ 0 := Nat.cast_ne_zero.mpr a.den_nz
  conv_rhs => rw [← Rat.num_div_den a]
  push_cast
  rw [div_div]

/-- JS `Math.round`: round half toward positive infinity. -/
def jsRound (q : ℚ) : ℤ := (qAdd q (mkRat 1 2)).floor

/-!  ### `getSensorURL` (main.ts 510-515) -/

/-- JS `String.prototype.startsWith`. -/
def strStartsWith (pat s : List Char) : Bool := decide (s.take pat.length = pat)

/-- JS `String.prototype.endsWith`. -/
def strEndsWith (pat s : List Char) : Bool :=
  decide (s.reverse.take pat.length = pat.reverse)

def getSensorURL (st : Settings) : List Char :=
  st.instance_uri ++
  (if strEndsWith (str "/") st.instance_uri then [] else str "/") ++
  str "api/states/" ++
  (if strStartsWith (str "sensor.") st.sensor then [] else str "sensor.") ++
  st.sensor

/-- The instance URI with one trailing slash removed, if present. -/
def stripTrailingSlash (u : List Char) : List Char :=
  if strEndsWith (str "/") u then u.dropLast else u

/-- The sensor name with one leading `sensor.` removed, if present. -/
def stripSensorName (s : List Char) : List Char :=
  if strStartsWith (str "sensor.") s then s.drop 7 else s

theorem endsSlash_decomp {u : List Char} (h : strEndsWith (str "/") u = true) :
    u = u.dropLast ++ ['/'] := by
  unfold strEndsWith at h
  have h' := of_decide_eq_true h
  cases hu : u.reverse with
  | nil => rw [hu] at h'; simp [str] at h'
  | cons c t =>
    rw [hu] at h'
    simp [str] at h'
    subst h'
    have hu2 : u = t.reverse ++ ['/'] := by
      calc u = u.reverse.reverse := (List.reverse_reverse u).symm
        _ = ('/' :: t).reverse := by rw [hu]
        _ = t.reverse ++ ['/'] := by simp
    conv_lhs => rw [hu2]
    congr 1
    rw [hu2, List.dropLast_concat]

theorem startsWith_decomp {p s : List Char} (h : strStartsWith p s = true) :
    s = p ++ s.drop p.length := by
  unfold strStartsWith at h
  have h' := of_decide_eq_true h
  conv_lhs => rw [← List.take_append_drop p.length s]
  rw [h']

/-- Claim C10: for every configured instance URI and sensor name, the
constructed sensor URL is the instance URI (without its trailing slash if any),
exactly one `/`, the fixed path `api/states/`, and the sensor name carrying
exactly one `sensor.` — regardless of whether the URI already ends
with `/` or the sensor name already starts with `sensor.`. -/
theorem sensor_url_normalized (st : Settings) :
    getSensorURL st
      = stripTrailingSlash st.instance_uri ++
        (str "/api/states/sensor." ++ stripSensorName st.sensor) := by
  have hSL : str "/api/states/sensor."
      = ['/'] ++ (str "api/states/" ++ str "sensor.") := by decide
  unfold getSensorURL stripTrailingSlash stripSensorName
  by_cases he : strEndsWith (str "/") st.instance_uri
  · rw [if_pos he, if_pos he]
    have hu := endsSlash_decomp he
    by_cases hs : strStartsWith (str "sensor.") st.sensor
    · rw [if_pos hs, if_pos hs]
      have hsen := startsWith_decomp hs
      conv_lhs => rw [hu, hsen]
      rw [hSL]
      simp [str, List.append_assoc]
    · rw [if_neg hs, if_neg hs]
      conv_lhs => rw [hu]
      rw [hSL]
      simp [str, List.append_assoc]
  · rw [if_neg he, if_neg he]
    by_cases hs : strStartsWith (str "sensor.") st.sensor
    · rw [if_pos hs, if_pos hs]
      have hsen := startsWith_decomp hs
      conv_lhs => rw [hsen]
      rw [hSL]
      simp [str, List.append_assoc]
    · rw [if_neg hs, if_neg hs]
      rw [hSL]
      simp [str, List.append_assoc]

/-!  ### Table rendering (`generateTableFromData`, main.ts 374-397)

`for (const time in readings)` iterates the integer-like timestamp keys of
a JS object in ascending numeric order, and `readings[time]` reads the
sample, so the loop enumerates the key/sample pairs sorted by key (the keys
of a JS object are unique). -/

def insertByKey {σ : Type} (p : Nat × σ) : List (Nat × σ) → List (Nat × σ)
  | [] => [p]
  | q :: rest => if p.1 ≤ q.1 then p :: q :: rest else q :: insertByKey p rest

/-- Enumeration order of a timestamp-keyed JS object: ascending numeric key. -/
def jsEnumByKey {σ : Type} : List (Nat × σ) → List (Nat × σ)
  | [] => []
  | p :: rest => insertByKey p (jsEnumByKey rest)

/-- JS `String.prototype.padStart(n)` (pad with spaces). -/
def padStartL (s : List Char) (n : Nat) : List Char :=
  List.replicate (n - s.length) ' ' ++ s

/-- One body row: `| ${print_time} | ${print_sample} |\n`. -/
def tableRow {σ : Type} (ctx : Ctx) (sel : σ → List Char) (header : List Char)
    (p : Nat × σ) : List Char :=
  str "| " ++ renderTime ctx p.1 ++ str " | " ++
  padStartL (sel p.2) header.length ++ str " |\n"

/-- The two header rows of the table. -/
def tableHead (header : List Char) : List Char :=
  '\n' :: (str "| Time     | " ++ header ++ str " |\n") ++
  (str "|----------|-" ++ List.replicate header.length '-' ++ str "-|\n")

def generateTableFromData {σ : Type} (ctx : Ctx) (readings : List (Nat × σ))
    (sel : σ → List Char) (header slug : List Char) : List Char :=
  (jsEnumByKey readings).foldl
    (fun acc p => acc ++ tableRow ctx sel header p)
    ('\n' :: (str "| Time     | " ++ header ++ str " |\n") ++
     (str "|----------|-" ++ List.replicate header.length '-' ++ str "-|\n")) ++
  ('^' :: (slug ++ str "\n\n"))

theorem foldl_append_eq_flatten {α : Type} (f : α → List Char) :
    ∀ (l : List α) (init : List Char),
      l.foldl (fun acc x => acc ++ f x) init = init ++ (l.map f).flatten := by
  intro l
  induction l with
  | nil => intro init; simp
  | cons x xs ih =>
    intro init
    simp only [List.foldl_cons, List.map_cons, List.flatten]
    rw [ih]
    simp [List.append_assoc]

theorem perm_insertByKey {σ : Type} (p : Nat × σ) (l : List (Nat × σ)) :
    List.Perm (insertByKey p l) (p :: l) := by
  induction l with
  | nil => rfl
  | cons q rest ih =>
    unfold insertByKey
    split
    · rfl
    · exact (List.Perm.cons q ih).trans (List.Perm.swap p q rest)

theorem perm_jsEnumByKey {σ : Type} (l : List (Nat × σ)) :
    List.Perm (jsEnumByKey l) l := by
  induction l with
  | nil => rfl
  | cons p rest ih =>
    unfold jsEnumByKey
    exact (perm_insertByKey p (jsEnumByKey rest)).trans (List.Perm.cons p ih)

theorem pairwise_insertByKey {σ : Type} {p : Nat × σ} {l : List (Nat × σ)}
    (h : l.Pairwise (fun a b => a.1 ≤ b.1)) :
    (insertByKey p l).Pairwise (fun a b => a.1 ≤ b.1) := by
  induction l with
  | nil => simp [insertByKey]
  | cons q rest ih =>
    rw [List.pairwise_cons] at h
    obtain ⟨hq, hrest⟩ := h
    unfold insertByKey
    split
    next hle =>
      rw [List.pairwise_cons]
      refine ⟨?_, List.pairwise_cons.mpr ⟨hq, hrest⟩⟩
      intro x hx
      rcases List.mem_cons.mp hx with rfl | hx
      · exact hle
      · exact le_trans hle (hq x hx)
    next hgt =>
      rw [List.pairwise_cons]
      refine ⟨?_, ih hrest⟩
      intro x hx
      rcases List.mem_cons.mp ((perm_insertByKey p rest).mem_iff.mp hx)
        with rfl | hx'
      · exact le_of_not_le hgt
      · exact hq x hx'

theorem pairwise_jsEnumByKey {σ : Type} (l : List (Nat × σ)) :
    (jsEnumByKey l).Pairwise (fun a b => a.1 ≤ b.1) := by
  induction l with
  | nil => simp [jsEnumByKey]
  | cons p rest ih =>
    unfold jsEnumByKey
    exact pairwise_insertByKey ih

/-- Claim C9: for every per-timestamp sample mapping, the rendered table is
the two header rows, then one row per sample in ascending numeric timestamp
order, then the trailing chart-anchor identifier line. -/
theorem table_rows_sorted_one_per_sample {σ : Type} (ctx : Ctx)
    (readings : List (Nat × σ)) (sel : σ → List Char) (header slug : List Char)
    (hnd : (readings.map Prod.fst).Nodup) :
    generateTableFromData ctx readings sel header slug
      = tableHead header ++
        ((jsEnumByKey readings).map (tableRow ctx sel header)).flatten ++
        ('^' :: (slug ++ str "\n\n")) ∧
    ((jsEnumByKey readings).map Prod.fst).Pairwise (· < ·) ∧
    List.Perm (jsEnumByKey readings) readings := by
  refine ⟨?_, ?_, perm_jsEnumByKey readings⟩
  · unfold generateTableFromData tableHead
    rw [foldl_append_eq_flatten]
  · have hperm : List.Perm ((jsEnumByKey readings).map Prod.fst)
        (readings.map Prod.fst) :=
      (perm_jsEnumByKey readings).map Prod.fst
    have hnd' : ((jsEnumByKey readings).map Prod.fst).Nodup :=
      (hperm.nodup_iff).mpr hnd
    have hle : ((jsEnumByKey readings).map Prod.fst).Pairwise (· ≤ ·) :=
      (pairwise_jsEnumByKey readings).map Prod.fst (fun a b hab => hab)
    exact (hle.and hnd').imp (fun hab => lt_of_le_of_ne hab.1 hab.2)

theorem table_rows_witness :
    (([(100, (⟨60, 100⟩ : HeartRateReading)),
       (200, (⟨65, 200⟩ : HeartRateReading))].map Prod.fst).Nodup) ∧
    (generateTableFromData
        ⟨⟨[], [], [], true, false, [], [], [], [], [], [], [], [], [], [], []⟩,
          fun q => str (toString q.num), fun _ t => str (toString t),
          fun _ => true⟩
        [(100, (⟨60, 100⟩ : HeartRateReading)),
         (200, (⟨65, 200⟩ : HeartRateReading))]
        (fun e => str (toString e.bpm.num)) (str "BPM") (str "heartrate")
      = tableHead (str "BPM") ++
        ((jsEnumByKey [(100, (⟨60, 100⟩ : HeartRateReading)),
                       (200, (⟨65, 200⟩ : HeartRateReading))]).map
          (tableRow
            ⟨⟨[], [], [], true, false, [], [], [], [], [], [], [], [], [], [], []⟩,
              fun q => str (toString q.num), fun _ t => str (toString t),
              fun _ => true⟩
            (fun e => str (toString e.bpm.num)) (str "BPM"))).flatten ++
        ('^' :: (str "heartrate" ++ str "\n\n")) ∧
    ((jsEnumByKey [(100, (⟨60, 100⟩ : HeartRateReading)),
                   (200, (⟨65, 200⟩ : HeartRateReading))]).map
        Prod.fst).Pairwise (· < ·) ∧
    List.Perm
      (jsEnumByKey [(100, (⟨60, 100⟩ : HeartRateReading)),
                    (200, (⟨65, 200⟩ : HeartRateReading))])
      [(100, (⟨60, 100⟩ : HeartRateReading)),
       (200, (⟨65, 200⟩ : HeartRateReading))]) :=
  ⟨by decide,
   table_rows_sorted_one_per_sample _ _ _ _ _ (by decide)⟩

/-!  ### Documents, vaults and run state

A document has a front-matter block (field name → string value; JS object
semantics) and a body.  The vault maps a raw date string to its daily note
and, separately, to its table note (table notes live under the configured
subfolder, a disjoint path space).  The run summary maps a date to a map of
field name → rendered value.  `fetchSensorData`, `moment` path formatting
and the folder creation for table paths are host concerns outside the
projection core. -/

structure Doc where
  fm : List (Key × List Char)
  body : List Char
deriving DecidableEq, Repr

structure RunState where
  vault : List (Key × Doc)
  tvault : List (Key × Doc)
  summary : List (Key × List (Key × List Char))
deriving DecidableEq, Repr

abbrev Err := List Char

def IGNORED_DATES : List Key := [str "lastSleep"]

def UNCOUNTED_SLEEP_STAGES : List Key := [str "Awake"]

/-- `EXERCISE_TYPE_MAPPINGS` applied to one exercise name. -/
def applyExerciseMapping (n : List Char) : List Char :=
  if n = str "Treadmill Running" then str "Treadmill" else n

/-- `getTableNoteInitialContents` (main.ts 210-221). -/
def getTableNoteInitialContents (ctx : Ctx) : List Char :=
  (if ctx.st.heartrate_section = [] then []
   else str "# " ++ ctx.st.heartrate_section ++ str "\n\n") ++
  (if ctx.st.blood_oxygen_section = [] then []
   else str "# " ++ ctx.st.blood_oxygen_section ++ str "\n\n")

/-- `dailyNotePathFor` places a note in the table subfolder exactly when
`for_table` is set and a `tables_subfolder` is configured. -/
def usesTableVault (ctx : Ctx) (ft : Bool) : Bool :=
  ft && !decide (ctx.st.tables_subfolder = [])

def readNote (ctx : Ctx) (ft : Bool) (d : Key) (s : RunState) : Option Doc :=
  if usesTableVault ctx ft then lookupA d s.tvault else lookupA d s.vault

def writeNote (ctx : Ctx) (ft : Bool) (d : Key) (doc : Doc) (s : RunState) :
    RunState :=
  if usesTableVault ctx ft then { s with tvault := setA d doc s.tvault }
  else { s with vault := setA d doc s.vault }

/-- `dailyNoteFor` (main.ts 225-248): locate the note; when it is missing
and `create_daily_notes` is set, create it (an empty table note seeded with
the configured section headings for the table variant, the host-constructed
daily note — modelled as an empty document — otherwise).  When the note is
absent and cannot be created, the source throws
`"unable to create daily note!"`. -/
def dailyNoteForM (ctx : Ctx) (d : Key) (ft : Bool) (s : RunState) :
    Except Err (Doc × RunState) :=
  match readNote ctx ft d s with
  | some doc => .ok (doc, s)
  | none =>
    if ctx.st.create_daily_notes && ctx.createOk d then
      if usesTableVault ctx ft then
        .ok (⟨[], getTableNoteInitialContents ctx⟩,
             writeNote ctx ft d ⟨[], getTableNoteInitialContents ctx⟩ s)
      else .ok (⟨[], []⟩, writeNote ctx ft d ⟨[], []⟩ s)
    else .error (str "unable to create daily note!")

/-- `storeToSummary` (main.ts 266-274). -/
def storeToSummary (d field value : Key) (s : RunState) : RunState :=
  { s with
    summary := setA d (setA field value ((lookupA d s.summary).getD []))
      s.summary }

/-- `updateFrontMatter` (main.ts 251-264): locate (or create) the daily
note, set the field in its front-matter block, and record the write in the
run summary. -/
def updateFrontMatterM (ctx : Ctx) (d field value : List Char)
    (s : RunState) : RunState × Option Err :=
  match dailyNoteForM ctx d false s with
  | .error e => (s, some e)
  | .ok (doc, s1) =>
    (storeToSummary d field value
      (writeNote ctx false d { doc with fm := setA field value doc.fm } s1),
     none)

/-- The date-keyed loop of `updateFrontMatterByField` (main.ts 290-303):
skip the reserved sentinel keys, skip values rendered `"undefined"`, and
update the front matter of each remaining date's note; the updates are
awaited, so a thrown error aborts the remaining rows. -/
def updateFMRows {α : Type} (ctx : Ctx) (field : List Char)
    (sel : α → List Char) : List (Key × α) → RunState → RunState × Option Err
  | [], s => (s, none)
  | (d, r) :: rest, s =>
    if d ∈ IGNORED_DATES then updateFMRows ctx field sel rest s
    else if sel r = str "undefined" then updateFMRows ctx field sel rest s
    else
      match updateFrontMatterM ctx d field (sel r) s with
      | (s1, none) => updateFMRows ctx field sel rest s1
      | (s1, some e) => (s1, some e)

/-- `updateFrontMatterByField` (main.ts 282-304): a null or absent
collection is skipped. -/
def updateFMByFieldM {α : Type} (ctx : Ctx)
    (readings : Option (List (Key × α))) (field : List Char)
    (sel : α → List Char) (s : RunState) : RunState × Option Err :=
  match readings with
  | none => (s, none)
  | some rows => updateFMRows ctx field sel rows s

/-- `replaceSection` (main.ts 307-330) at the vault level: no-op for the
empty heading; otherwise locate (or create) the note and rewrite the
section when the regex matches (no write otherwise). -/
def replaceSectionM (ctx : Ctx) (d heading newContent : List Char)
    (isTable : Bool) (s : RunState) : RunState × Option Err :=
  if heading = [] then (s, none)
  else
    match dailyNoteForM ctx d isTable s with
    | .error e => (s, some e)
    | .ok (doc, s1) =>
      if (findSection heading doc.body).isSome then
        (writeNote ctx isTable d
          { doc with body := replaceSectionText heading doc.body newContent }
          s1,
         none)
      else (s1, none)

/-!  ### Category projectors (main.ts 333-483) -/

def updateCaloriesM (ctx : Ctx) (readings : Option (List (Key × CaloriesDay)))
    (s : RunState) : RunState × Option Err :=
  updateFMByFieldM ctx readings ctx.st.calorie_field
    (fun e => ctx.numStr ((jsRound e.energy : ℤ) : ℚ)) s

def updateHydrationM (ctx : Ctx) (readings : Option (List (Key × HydrationDay)))
    (s : RunState) : RunState × Option Err :=
  updateFMByFieldM ctx readings ctx.st.hydration_field
    (fun e => ctx.numStr e.volume) s

def updateStepsM (ctx : Ctx) (readings : Option (List (Key × StepDay)))
    (s : RunState) : RunState × Option Err :=
  updateFMByFieldM ctx readings ctx.st.steps_field
    (fun e => ctx.numStr e.count) s

/-- Weight selector: `String(Object.values(e).last())` — the values of a
timestamp-keyed object in ascending key order, last one taken;
`String(undefined)` is the literal `"undefined"` when the day is empty. -/
def weightSel (ctx : Ctx) (e : TimeSeries) : List Char :=
  match ((jsEnumByKey e).map Prod.snd).getLast? with
  | none => str "undefined"
  | some v => ctx.numStr v

def updateWeightM (ctx : Ctx) (readings : Option (List (Key × TimeSeries)))
    (s : RunState) : RunState × Option Err :=
  updateFMByFieldM ctx readings ctx.st.weight_field (weightSel ctx) s

/-- The exercise list body built by `updateExercise` (main.ts 350-356). -/
def exerciseListOf (day : ExerciseDay) : List Char :=
  (day.sessions.map (fun sess =>
    str "  - **" ++ sess.durationFormatted ++ str "**: " ++
    applyExerciseMapping sess.exerciseName ++ str "\n")).flatten

/-- The date loop of `updateExercise` (main.ts 339-364): section rewrite,
then the front-matter write of the rounded total minutes; both awaited.
Note: no sentinel-key filtering here. -/
def updateExerciseRows (ctx : Ctx) :
    List (Key × ExerciseDay) → RunState → RunState × Option Err
  | [], s => (s, none)
  | (d, day) :: rest, s =>
    match replaceSectionM ctx d ctx.st.exercise_list_section
        (exerciseListOf day) false s with
    | (s1, some e) => (s1, some e)
    | (s1, none) =>
      match updateFrontMatterM ctx d ctx.st.exercise_field
          (ctx.numStr ((jsRound (qDiv60 day.totalDuration) : ℤ) : ℚ)) s1 with
      | (s2, some e) => (s2, some e)
      | (s2, none) => updateExerciseRows ctx rest s2

def updateExerciseM (ctx : Ctx) (readings : Option (List (Key × ExerciseDay)))
    (s : RunState) : RunState × Option Err :=
  match readings with
  | none => (s, none)
  | some rows => updateExerciseRows ctx rows s

/-- The date loop of `updateDailyTables` (main.ts 399-412).
Note: no sentinel-key filtering here. -/
def updateTableRows {σ : Type} (ctx : Ctx) (target : List Char)
    (sel : σ → List Char) (header slug : List Char) :
    List (Key × List (Nat × σ)) → RunState → RunState × Option Err
  | [], s => (s, none)
  | (d, samples) :: rest, s =>
    match replaceSectionM ctx d target
        (generateTableFromData ctx samples sel header slug) true s with
    | (s1, some e) => (s1, some e)
    | (s1, none) => updateTableRows ctx target sel header slug rest s1

def updateDailyTablesM {σ : Type} (ctx : Ctx)
    (readings : Option (List (Key × List (Nat × σ)))) (target : List Char)
    (sel : σ → List Char) (header slug : List Char) (s : RunState) :
    RunState × Option Err :=
  match readings with
  | none => (s, none)
  | some rows => updateTableRows ctx target sel header slug rows s

def updateHeartrateM (ctx : Ctx)
    (readings : Option (List (Key × HeartRateReadingDay))) (s : RunState) :
    RunState × Option Err :=
  updateDailyTablesM ctx readings ctx.st.heartrate_section
    (fun e => ctx.numStr e.bpm) (str "BPM") (str "heartrate") s

def updateBloodOxygenM (ctx : Ctx)
    (readings : Option (List (Key × TimeSeries))) (s : RunState) :
    RunState × Option Err :=
  updateDailyTablesM ctx readings ctx.st.blood_oxygen_section
    (fun e => ctx.numStr e) (str "SpO2 %") (str "spo2") s

/-- The inner `forEach` over sleep stages (main.ts 452-470): skip uncounted
stages, tally each counted stage's minutes, write its front-matter field
(the write is not awaited in the source, so a failure there rejects an
orphan promise and the loop continues — the error is dropped), and
accumulate the day total. -/
def sleepStagesFold (ctx : Ctx) (d : Key) :
    List SleepStage → RunState → ℚ → RunState × ℚ
  | [], s, total => (s, total)
  | stage :: rest, s, total =>
    if stage.stageFormat ∈ UNCOUNTED_SLEEP_STAGES then
      sleepStagesFold ctx d rest s total
    else
      sleepStagesFold ctx d rest
        (updateFrontMatterM ctx d stage.stageFormat
          (ctx.numStr
            (stage.sessions.foldl
              (fun acc sess => qAdd acc (qDiv60 sess.duration)) 0))
          s).1
        (qAdd total
          (stage.sessions.foldl
            (fun acc sess => qAdd acc (qDiv60 sess.duration)) 0))

/-- The date loop of `updateSleep` (main.ts 440-474): skip the sentinel
keys, process the stages, then write the total-sleep field (also not
awaited — errors dropped). -/
def updateSleepRows (ctx : Ctx) : List (Key × SleepDay) → RunState → RunState
  | [], s => s
  | (d, day) :: rest, s =>
    if d ∈ IGNORED_DATES then updateSleepRows ctx rest s
    else
      updateSleepRows ctx rest
        (updateFrontMatterM ctx d ctx.st.total_sleep_field
          (ctx.numStr (sleepStagesFold ctx d day.stage s 0).2)
          (sleepStagesFold ctx d day.stage s 0).1).1

def updateSleepM (ctx : Ctx) (readings : Option (List (Key × SleepDay)))
    (s : RunState) : RunState × Option Err :=
  match readings with
  | none => (s, none)
  | some rows => (updateSleepRows ctx rows s, none)

/-!  ### Run summary flush and the run (main.ts 128-169) -/

/-- The Dataview block built for one date by `updateSummary` (160-164). -/
def summaryBlockOf (daily : List (Key × List Char)) : List Char :=
  '\n' :: (daily.map (fun p =>
    str "**" ++ p.1 ++ str "**:: " ++ p.2 ++ str "\n")).flatten

/-- The per-date flush loop of `updateSummary` (main.ts 157-167): the
section rewrites are not awaited, so their errors are dropped. -/
def flushSummaryEntries (ctx : Ctx) :
    List (Key × List (Key × List Char)) → RunState → RunState
  | [], s => s
  | (d, daily) :: rest, s =>
    flushSummaryEntries ctx rest
      (replaceSectionM ctx d ctx.st.summary_section (summaryBlockOf daily)
        false s).1

/-- `updateSummary` (main.ts 150-169): nothing when no summary section is
configured; otherwise one section rewrite per date of the accumulated
summary.  The summary itself is not cleared. -/
def updateSummaryM (ctx : Ctx) (s : RunState) : RunState × Option Err :=
  if ctx.st.summary_section = [] then (s, none)
  else (flushSummaryEntries ctx s.summary s, none)

/-- `SensorData` (types.ts 142-151): each category may be null/absent. -/
structure SensorData where
  calories : Option (List (Key × CaloriesDay))
  exercise : Option (List (Key × ExerciseDay))
  heart : Option (List (Key × HeartRateReadingDay))
  hydration : Option (List (Key × HydrationDay))
  oxygen : Option (List (Key × TimeSeries))
  sleep : Option (List (Key × SleepDay))
  steps : Option (List (Key × StepDay))
  weight : Option (List (Key × TimeSeries))

/-- Sequencing of awaited steps: an error aborts what follows. -/
def andThen (r : RunState × Option Err)
    (f : RunState → RunState × Option Err) : RunState × Option Err :=
  match r with
  | (s, none) => f s
  | (s, some e) => (s, some e)

/-- `runSync` (main.ts 128-148) after a successful fetch: the category
updates in source order, then the summary flush; every step is awaited, so
a thrown error aborts the remaining steps. -/
def runSyncM (ctx : Ctx) (data : SensorData) (s : RunState) :
    RunState × Option Err :=
  andThen (updateCaloriesM ctx data.calories s) (fun s1 =>
  andThen (updateExerciseM ctx data.exercise s1) (fun s2 =>
  andThen (updateHeartrateM ctx data.heart s2) (fun s3 =>
  andThen (updateHydrationM ctx data.hydration s3) (fun s4 =>
  andThen (updateBloodOxygenM ctx data.oxygen s4) (fun s5 =>
  andThen (updateSleepM ctx data.sleep s5) (fun s6 =>
  andThen (updateStepsM ctx data.steps s6) (fun s7 =>
  andThen (updateWeightM ctx data.weight s7) (fun s8 =>
  updateSummaryM ctx s8))))))))

/-- The front-matter value of a field of the daily note for a date:
`none` when the note does not exist. -/
def docFieldOf (s : RunState) (d field : Key) : Option (Option (List Char)) :=
  (lookupA d s.vault).map (fun doc => lookupA field doc.fm)

/-- The run-summary value recorded for a date and field. -/
def lookupSF (s : RunState) (d field : Key) : Option (List Char) :=
  (lookupA d s.summary).bind (fun daily => lookupA field daily)

/-!  ### Association-list lemmas -/

theorem lookupA_cons {β : Type} (k k0 : Key) (v0 : β) (rest : List (Key × β)) :
    lookupA k ((k0, v0) :: rest)
      = if k0 = k then some v0 else lookupA k rest := rfl

theorem setA_cons {β : Type} (k : Key) (v : β) (k0 : Key) (v0 : β)
    (rest : List (Key × β)) :
    setA k v ((k0, v0) :: rest)
      = if k0 = k then (k, v) :: rest else (k0, v0) :: setA k v rest := rfl

theorem lookupA_setA_self {β : Type} (k : Key) (v : β) (l : List (Key × β)) :
    lookupA k (setA k v l) = some v := by
  induction l with
  | nil =>
    rw [show setA k v ([] : List (Key × β)) = [(k, v)] from rfl,
        lookupA_cons, if_pos rfl]
  | cons p rest ih =>
    obtain ⟨k0, v0⟩ := p
    by_cases h : k0 = k
    · rw [setA_cons, if_pos h, lookupA_cons, if_pos rfl]
    · rw [setA_cons, if_neg h, lookupA_cons, if_neg h]
      exact ih

theorem lookupA_setA_ne {β : Type} {k' k : Key} (hne : k' ≠ k) (v : β)
    (l : List (Key × β)) : lookupA k' (setA k v l) = lookupA k' l := by
  have hkk : ¬ k = k' := fun hk => hne hk.symm
  induction l with
  | nil =>
    rw [show setA k v ([] : List (Key × β)) = [(k, v)] from rfl,
        lookupA_cons, if_neg hkk]
  | cons p rest ih =>
    obtain ⟨k0, v0⟩ := p
    by_cases h : k0 = k
    · rw [setA_cons, if_pos h, lookupA_cons, if_neg hkk, lookupA_cons, h,
          if_neg hkk]
    · rw [setA_cons, if_neg h, lookupA_cons, lookupA_cons]
      by_cases h0 : k0 = k'
      · rw [if_pos h0, if_pos h0]
      · rw [if_neg h0, if_neg h0]
        exact ih

theorem setA_overwrite {β : Type} (k : Key) (v1 v2 : β) (l : List (Key × β)) :
    setA k v2 (setA k v1 l) = setA k v2 l := by
  induction l with
  | nil =>
    rw [show setA k v1 ([] : List (Key × β)) = [(k, v1)] from rfl,
        setA_cons, if_pos rfl,
        show setA k v2 ([] : List (Key × β)) = [(k, v2)] from rfl]
  | cons p rest ih =>
    obtain ⟨k0, v0⟩ := p
    by_cases h : k0 = k
    · rw [setA_cons, if_pos h, setA_cons, if_pos rfl, setA_cons, if_pos h]
    · rw [setA_cons, if_neg h, setA_cons, if_neg h, setA_cons, if_neg h, ih]

theorem setA_id {β : Type} {k : Key} {v : β} {l : List (Key × β)}
    (h : lookupA k l = some v) : setA k v l = l := by
  induction l with
  | nil => simp [lookupA] at h
  | cons p rest ih =>
    obtain ⟨k0, v0⟩ := p
    rw [lookupA_cons] at h
    by_cases h0 : k0 = k
    · rw [if_pos h0] at h
      injection h with h
      rw [setA_cons, if_pos h0, h0, h]
    · rw [if_neg h0] at h
      rw [setA_cons, if_neg h0, ih h]

/-!  ### Characterizations of the front-matter update -/

theorem usesTableVault_false (ctx : Ctx) : usesTableVault ctx false = false := rfl

theorem writeNote_false (ctx : Ctx) (d : Key) (doc : Doc) (s : RunState) :
    writeNote ctx false d doc s = { s with vault := setA d doc s.vault } := by
  simp [writeNote, usesTableVault]

theorem uFM_ok_state (ctx : Ctx) (d f v : Key) (s : RunState) (doc : Doc)
    (h : lookupA d s.vault = some doc) :
    updateFrontMatterM ctx d f v s
      = (storeToSummary d f v
          { s with vault := setA d { doc with fm := setA f v doc.fm } s.vault },
         none) := by
  simp [updateFrontMatterM, dailyNoteForM, readNote, usesTableVault, writeNote, h]

theorem uFM_create_state (ctx : Ctx) (d f v : Key) (s : RunState)
    (h : lookupA d s.vault = none)
    (hc : ctx.st.create_daily_notes = true) (hok : ctx.createOk d = true) :
    updateFrontMatterM ctx d f v s
      = (storeToSummary d f v
          { s with
            vault := setA d ⟨setA f v [], []⟩ (setA d ⟨[], []⟩ s.vault) },
         none) := by
  simp [updateFrontMatterM, dailyNoteForM, readNote, usesTableVault, writeNote,
    h, hc, hok]

theorem uFM_fail_state (ctx : Ctx) (d f v : Key) (s : RunState)
    (h : lookupA d s.vault = none)
    (hc : (ctx.st.create_daily_notes && ctx.createOk d) = false) :
    updateFrontMatterM ctx d f v s
      = (s, some (str "unable to create daily note!")) := by
  simp [updateFrontMatterM, dailyNoteForM, readNote, usesTableVault, hc, h]

theorem uFM_frame (ctx : Ctx) {d L : Key} (f v : Key) (s : RunState)
    (hne : d ≠ L) :
    lookupA L ((updateFrontMatterM ctx d f v s).1).vault = lookupA L s.vault ∧
    lookupA L ((updateFrontMatterM ctx d f v s).1).summary
      = lookupA L s.summary := by
  cases h : lookupA d s.vault with
  | some doc =>
    rw [uFM_ok_state ctx d f v s doc h]
    constructor
    · simp [storeToSummary, lookupA_setA_ne (Ne.symm hne)]
    · simp [storeToSummary, lookupA_setA_ne (Ne.symm hne)]
  | none =>
    cases hc : (ctx.st.create_daily_notes && ctx.createOk d) with
    | false => rw [uFM_fail_state ctx d f v s h hc]; exact ⟨rfl, rfl⟩
    | true =>
      rw [Bool.and_eq_true] at hc
      rw [uFM_create_state ctx d f v s h hc.1 hc.2]
      constructor
      · simp [storeToSummary, lookupA_setA_ne (Ne.symm hne)]
      · simp [storeToSummary, lookupA_setA_ne (Ne.symm hne)]

/-!  ### Concrete instances used by witnesses and counterexamples -/

/-- A simple injective rational renderer standing in for the host's number
formatting in concrete instances (the run model is parametric in it). -/
def qRender (q : ℚ) : List Char :=
  (if q.num < 0 then ['-'] else []) ++ Nat.toDigits 10 q.num.natAbs ++
  (if q.den = 1 then [] else '/' :: Nat.toDigits 10 q.den)

def settings0 : Settings where
  token := []
  instance_uri := []
  sensor := []
  create_daily_notes := true
  format_times := false
  tables_subfolder := str "tables"
  calorie_field := str "Cal"
  exercise_field := str "Ex"
  hydration_field := str "Hyd"
  steps_field := str "Steps"
  weight_field := str "W"
  total_sleep_field := str "Sleep"
  heartrate_section := str "Heartrate"
  blood_oxygen_section := str "SpO2"
  exercise_list_section := []
  summary_section := str "S"

def dateA : Key := str "2024-01-01"

def dateB : Key := str "2024-01-02"

def ctx0 : Ctx where
  st := settings0
  numStr := qRender
  renderT := fun _ t => Nat.toDigits 10 t
  createOk := fun _ => true

/-- Note creation failing at the storage layer for 2024-01-01 only. -/
def ctxFailA : Ctx where
  st := settings0
  numStr := qRender
  renderT := fun _ t => Nat.toDigits 10 t
  createOk := fun d => !(d == dateA)

def state0 : RunState := ⟨[], [], []⟩

/-- A state whose vault already holds an empty note for 2024-01-02. -/
def stateB : RunState := ⟨[(dateB, ⟨[], []⟩)], [], []⟩

/-- A state whose vault holds a note for 2024-01-01 with a summary section. -/
def stateS : RunState := ⟨[(dateA, ⟨[], str "# S\n"⟩)], [], []⟩

def noneData : SensorData := ⟨none, none, none, none, none, none, none, none⟩

/-!  ### Claim C1: behaviour of a document-creation failure -/

/-- Claim C1 (amended): a document-creation failure at the storage layer
raises an error that aborts the rest of the synchronization run: the
remaining dates of the failing category and all later categories (and the
summary flush) are not processed; only updates applied before the failure
persist.  Formally: a failing front-matter update ends its category's date
loop at once with that error and the state at failure, and a failing
calories update makes the whole run return that error and state. -/
theorem creation_failure_aborts_run :
    (∀ (ctx : Ctx) (data : SensorData) (s s1 : RunState) (e : Err),
        updateCaloriesM ctx data.calories s = (s1, some e) →
        runSyncM ctx data s = (s1, some e)) ∧
    (∀ (α : Type) (ctx : Ctx) (field : List Char) (sel : α → List Char)
        (d : Key) (r : α) (rest : List (Key × α)) (s s1 : RunState) (e : Err),
        d ∉ IGNORED_DATES → ¬ sel r = str "undefined" →
        updateFrontMatterM ctx d field (sel r) s = (s1, some e) →
        updateFMRows ctx field sel ((d, r) :: rest) s = (s1, some e)) := by
  constructor
  · intro ctx data s s1 e h
    unfold runSyncM
    rw [h]
    rfl
  · intro α ctx field sel d r rest s s1 e hd hv h
    unfold updateFMRows
    rw [if_neg hd, if_neg hv, h]

theorem creation_failure_witness :
    updateCaloriesM ctxFailA (some [(dateA, ⟨5⟩), (dateB, ⟨7⟩)]) stateB
      = (stateB, some (str "unable to create daily note!")) ∧
    runSyncM ctxFailA
        { noneData with calories := some [(dateA, ⟨5⟩), (dateB, ⟨7⟩)] } stateB
      = (stateB, some (str "unable to create daily note!")) ∧
    updateFMRows ctxFailA (str "Cal")
        (fun e => ctxFailA.numStr ((jsRound e.energy : ℤ) : ℚ))
        [(dateA, (⟨5⟩ : CaloriesDay)), (dateB, ⟨7⟩)] stateB
      = (stateB, some (str "unable to create daily note!")) :=
  ⟨by decide,
   creation_failure_aborts_run.1 ctxFailA
     { noneData with calories := some [(dateA, ⟨5⟩), (dateB, ⟨7⟩)] }
     stateB stateB (str "unable to create daily note!") (by decide),
   creation_failure_aborts_run.2 CaloriesDay ctxFailA (str "Cal")
     (fun e => ctxFailA.numStr ((jsRound e.energy : ℤ) : ℚ))
     dateA ⟨5⟩ [(dateB, ⟨7⟩)] stateB stateB
     (str "unable to create daily note!")
     (by decide) (by decide) (by decide)⟩

/-- Claim C1 counterexample: with note creation failing for 2024-01-01
(absent document that cannot be created) and a calories collection holding
2024-01-01 then 2024-01-02, the run aborts: the calorie field of
2024-01-02's existing note is never written, whereas running with the
failing date absent writes it — so the run does not continue "as if the
failing date were absent". -/
theorem creation_failure_not_isolated_cex :
    docFieldOf
        (runSyncM ctxFailA
          { noneData with calories := some [(dateA, ⟨5⟩), (dateB, ⟨7⟩)] }
          stateB).1
        dateB (str "Cal") = some none ∧
    docFieldOf
        (runSyncM ctxFailA
          { noneData with calories := some [(dateB, ⟨7⟩)] } stateB).1
        dateB (str "Cal") = some (some (str "7")) := by
  decide

/-!  ### Claim C3: sentinel-key exclusion -/

theorem updateFMRows_keyframe {α : Type} (ctx : Ctx) (field : List Char)
    (sel : α → List Char) {L : Key} :
    ∀ (rows : List (Key × α)) (s : RunState),
      (∀ p ∈ rows, p.1 ∈ IGNORED_DATES ∨ p.1 ≠ L) →
      lookupA L ((updateFMRows ctx field sel rows s).1).vault
        = lookupA L s.vault ∧
      lookupA L ((updateFMRows ctx field sel rows s).1).summary
        = lookupA L s.summary := by
  intro rows
  induction rows with
  | nil => intro s _; exact ⟨rfl, rfl⟩
  | cons p rest ih =>
    intro s hL
    obtain ⟨d, r⟩ := p
    have hrest : ∀ p ∈ rest, p.1 ∈ IGNORED_DATES ∨ p.1 ≠ L :=
      fun p hp => hL p (List.mem_cons_of_mem _ hp)
    unfold updateFMRows
    by_cases hd : d ∈ IGNORED_DATES
    · rw [if_pos hd]
      exact ih s hrest
    · rw [if_neg hd]
      have hdL : d ≠ L := by
        rcases hL (d, r) (List.mem_cons_self _ _) with h | h
        · exact absurd h hd
        · exact h
      by_cases hv : sel r = str "undefined"
      · rw [if_pos hv]
        exact ih s hrest
      · rw [if_neg hv]
        split
        next s1 hupd =>
          have hfr := uFM_frame ctx field (sel r) s hdL
          rw [hupd] at hfr
          obtain ⟨hv1, hs1⟩ := ih s1 hrest
          exact ⟨hv1.trans hfr.1, hs1.trans hfr.2⟩
        next s1 e hupd =>
          have hfr := uFM_frame ctx field (sel r) s hdL
          rw [hupd] at hfr
          exact hfr

theorem sleepStagesFold_frame (ctx : Ctx) {d L : Key} (hne : d ≠ L) :
    ∀ (stages : List SleepStage) (s : RunState) (t : ℚ),
      lookupA L ((sleepStagesFold ctx d stages s t).1).vault
        = lookupA L s.vault ∧
      lookupA L ((sleepStagesFold ctx d stages s t).1).summary
        = lookupA L s.summary := by
  intro stages
  induction stages with
  | nil => intro s t; exact ⟨rfl, rfl⟩
  | cons stage rest ih =>
    intro s t
    unfold sleepStagesFold
    by_cases hst : stage.stageFormat ∈ UNCOUNTED_SLEEP_STAGES
    · rw [if_pos hst]
      exact ih s t
    · rw [if_neg hst]
      obtain ⟨ha, hb⟩ := uFM_frame ctx stage.stageFormat
        (ctx.numStr
          (stage.sessions.foldl
            (fun acc sess => qAdd acc (qDiv60 sess.duration)) 0))
        s hne
      obtain ⟨h1, h2⟩ := ih _ _
      exact ⟨h1.trans ha, h2.trans hb⟩

theorem updateSleepRows_sentinel (ctx : Ctx) :
    ∀ (rows : List (Key × SleepDay)) (s : RunState),
      lookupA (str "lastSleep") (updateSleepRows ctx rows s).vault
        = lookupA (str "lastSleep") s.vault ∧
      lookupA (str "lastSleep") (updateSleepRows ctx rows s).summary
        = lookupA (str "lastSleep") s.summary := by
  intro rows
  induction rows with
  | nil => intro s; exact ⟨rfl, rfl⟩
  | cons p rest ih =>
    intro s
    obtain ⟨d, day⟩ := p
    unfold updateSleepRows
    by_cases hd : d ∈ IGNORED_DATES
    · rw [if_pos hd]
      exact ih s
    · rw [if_neg hd]
      have hdL : d ≠ str "lastSleep" := by
        intro h
        exact hd (by rw [h]; simp [IGNORED_DATES])
      obtain ⟨hsf1, hsf2⟩ := sleepStagesFold_frame ctx hdL day.stage s 0
      obtain ⟨hu1, hu2⟩ := uFM_frame ctx ctx.st.total_sleep_field
        (ctx.numStr (sleepStagesFold ctx d day.stage s 0).2)
        (sleepStagesFold ctx d day.stage s 0).1 hdL
      obtain ⟨hr1, hr2⟩ := ih _
      exact ⟨hr1.trans (hu1.trans hsf1), hr2.trans (hu2.trans hsf2)⟩

/-- Claim C3 (amended): the scalar projectors (calories, hydration, steps,
weight — all running through `updateFrontMatterByField`) and the sleep
projector exclude the reserved sentinel key `"lastSleep"` from date-keyed
iteration: the daily note and the summary entry keyed by the sentinel are
never touched.  The exercise and heart-rate/blood-oxygen projectors do not
filter the sentinel and will use it to locate or mutate a document (see the
counterexample). -/
theorem sentinel_skipped_scalar_and_sleep (ctx : Ctx) (s : RunState) :
    (∀ (α : Type) (rows : List (Key × α)) (field : List Char)
        (sel : α → List Char),
      lookupA (str "lastSleep") ((updateFMRows ctx field sel rows s).1).vault
        = lookupA (str "lastSleep") s.vault ∧
      lookupA (str "lastSleep")
          ((updateFMRows ctx field sel rows s).1).summary
        = lookupA (str "lastSleep") s.summary) ∧
    (∀ rows : List (Key × SleepDay),
      lookupA (str "lastSleep") (updateSleepRows ctx rows s).vault
        = lookupA (str "lastSleep") s.vault ∧
      lookupA (str "lastSleep") (updateSleepRows ctx rows s).summary
        = lookupA (str "lastSleep") s.summary) := by
  constructor
  · intro α rows field sel
    apply updateFMRows_keyframe
    intro p _
    by_cases h : p.1 = str "lastSleep"
    · left
      rw [h]
      simp [IGNORED_DATES]
    · right
      exact h
  · intro rows
    exact updateSleepRows_sentinel ctx rows s

/-- Claim C3 counterexample: an exercise collection whose only key is the
sentinel `"lastSleep"` — `updateExercise` iterates all keys without
filtering `IGNORED_DATES`, so a note keyed by the sentinel is created and
its exercise-minutes field written (120 s total → "2" minutes). -/
theorem sentinel_used_by_exercise_cex :
    lookupA (str "lastSleep")
        ((updateExerciseM ctx0
          (some [(str "lastSleep", ⟨[], 120⟩)]) state0).1).vault
      = some ⟨[(str "Ex", str "2")], []⟩ := by
  decide

/-!  ### Claim C5: scalar category values -/

theorem updateFMRows_single {α : Type} (ctx : Ctx) (field : List Char)
    (sel : α → List Char) (d : Key) (r : α) (s : RunState)
    (hcr : ctx.st.create_daily_notes = true) (hok : ctx.createOk d = true)
    (hd : d ∉ IGNORED_DATES) (hv : ¬ sel r = str "undefined") :
    docFieldOf ((updateFMRows ctx field sel [(d, r)] s).1) d field
      = some (some (sel r)) := by
  unfold updateFMRows
  rw [if_neg hd, if_neg hv]
  cases h : lookupA d s.vault with
  | some doc =>
    rw [uFM_ok_state ctx d field (sel r) s doc h]
    simp [docFieldOf, storeToSummary, updateFMRows, lookupA_setA_self]
  | none =>
    rw [uFM_create_state ctx d field (sel r) s h hcr hok]
    simp [docFieldOf, storeToSummary, updateFMRows, lookupA_setA_self]

/-- Claim C5 (amended): for a date in a scalar category collection, the
value written to the metadata field is: for calories, the source's energy
rounded to the nearest whole unit (`Math.round`); for hydration and steps,
the source's raw volume and count written through unrounded. -/
theorem scalar_values_rounding_behavior (ctx : Ctx) (s : RunState) (d : Key)
    (e1 : CaloriesDay) (e2 : HydrationDay) (e3 : StepDay)
    (hcr : ctx.st.create_daily_notes = true) (hok : ctx.createOk d = true)
    (hd : d ∉ IGNORED_DATES)
    (h1 : ¬ ctx.numStr ((jsRound e1.energy : ℤ) : ℚ) = str "undefined")
    (h2 : ¬ ctx.numStr e2.volume = str "undefined")
    (h3 : ¬ ctx.numStr e3.count = str "undefined") :
    docFieldOf (updateCaloriesM ctx (some [(d, e1)]) s).1 d
        ctx.st.calorie_field
      = some (some (ctx.numStr ((jsRound e1.energy : ℤ) : ℚ))) ∧
    docFieldOf (updateHydrationM ctx (some [(d, e2)]) s).1 d
        ctx.st.hydration_field
      = some (some (ctx.numStr e2.volume)) ∧
    docFieldOf (updateStepsM ctx (some [(d, e3)]) s).1 d ctx.st.steps_field
      = some (some (ctx.numStr e3.count)) := by
  refine ⟨?_, ?_, ?_⟩
  · simpa only [updateCaloriesM, updateFMByFieldM] using
      updateFMRows_single ctx ctx.st.calorie_field
        (fun e => ctx.numStr ((jsRound e.energy : ℤ) : ℚ)) d e1 s hcr hok hd h1
  · simpa only [updateHydrationM, updateFMByFieldM] using
      updateFMRows_single ctx ctx.st.hydration_field
        (fun e => ctx.numStr e.volume) d e2 s hcr hok hd h2
  · simpa only [updateStepsM, updateFMByFieldM] using
      updateFMRows_single ctx ctx.st.steps_field
        (fun e => ctx.numStr e.count) d e3 s hcr hok hd h3

theorem scalar_values_witness :
    docFieldOf (updateCaloriesM ctx0 (some [(dateA, ⟨5⟩)]) state0).1 dateA
        ctx0.st.calorie_field
      = some (some (ctx0.numStr ((jsRound (5 : ℚ) : ℤ) : ℚ))) ∧
    docFieldOf (updateHydrationM ctx0 (some [(dateA, ⟨mkRat 1 2⟩)]) state0).1
        dateA ctx0.st.hydration_field
      = some (some (ctx0.numStr (mkRat 1 2))) ∧
    docFieldOf (updateStepsM ctx0 (some [(dateA, ⟨100⟩)]) state0).1 dateA
        ctx0.st.steps_field
      = some (some (ctx0.numStr (100 : ℚ))) :=
  scalar_values_rounding_behavior ctx0 state0 dateA ⟨5⟩ ⟨mkRat 1 2⟩ ⟨100⟩
    (by decide) (by decide) (by decide) (by decide) (by decide) (by decide)

/-- Claim C5 counterexample: hydration is not rounded — for a source volume
of 1/2 the written metadata value is the rendering of the raw 1/2, which is
not the rendering of the rounded value (`Math.round(0.5)` = 1). -/
theorem hydration_not_rounded_cex :
    docFieldOf
        (updateHydrationM ctx0 (some [(dateA, ⟨mkRat 1 2⟩)]) state0).1 dateA
        (str "Hyd")
      = some (some (str "1/2")) ∧
    ¬ str "1/2" = qRender ((jsRound (mkRat 1 2) : ℤ) : ℚ) := by
  decide

/-!  ### Claim C6: run-summary lifetime -/

theorem lookupSF_congr {s1 s2 : RunState} (h : s1.summary = s2.summary)
    (d f : Key) : lookupSF s1 d f = lookupSF s2 d f := by
  unfold lookupSF
  rw [h]

theorem writeNote_summary (ctx : Ctx) (ft : Bool) (d : Key) (doc : Doc)
    (s : RunState) : (writeNote ctx ft d doc s).summary = s.summary := by
  unfold writeNote
  split <;> rfl

theorem dailyNoteForM_summary {ctx : Ctx} {d : Key} {ft : Bool} {s : RunState}
    {doc : Doc} {s1 : RunState}
    (h : dailyNoteForM ctx d ft s = .ok (doc, s1)) : s1.summary = s.summary := by
  unfold dailyNoteForM at h
  split at h
  next doc0 hl =>
    simp only [Except.ok.injEq, Prod.mk.injEq] at h
    obtain ⟨-, rfl⟩ := h
    rfl
  next hl =>
    split at h
    case isTrue =>
      split at h
      case isTrue =>
        simp only [Except.ok.injEq, Prod.mk.injEq] at h
        obtain ⟨-, h2⟩ := h
        rw [← h2, writeNote_summary]
      case isFalse =>
        simp only [Except.ok.injEq, Prod.mk.injEq] at h
        obtain ⟨-, h2⟩ := h
        rw [← h2, writeNote_summary]
    case isFalse => exact absurd h (by simp)

theorem replaceSectionM_summary (ctx : Ctx) (d heading nc : List Char)
    (it : Bool) (s : RunState) :
    ((replaceSectionM ctx d heading nc it s).1).summary = s.summary := by
  unfold replaceSectionM
  split
  · rfl
  · split
    next e h => rfl
    next doc s1 h =>
      split
      · have h1 : ((writeNote ctx it d
            { doc with body := replaceSectionText heading doc.body nc } s1,
            (none : Option Err)).1).summary = s1.summary :=
          writeNote_summary ctx it d _ s1
        exact h1.trans (dailyNoteForM_summary h)
      · exact dailyNoteForM_summary h

theorem storeToSummary_mono {s : RunState} {d f v d' f' : Key}
    (h : (lookupSF s d' f').isSome = true) :
    (lookupSF (storeToSummary d f v s) d' f').isSome = true := by
  unfold lookupSF at h ⊢
  unfold storeToSummary
  by_cases hd : d' = d
  · subst hd
    rw [lookupA_setA_self]
    cases hl : lookupA d' s.summary with
    | none =>
      rw [hl] at h
      simp at h
    | some m =>
      rw [hl] at h
      simp only [Option.some_bind] at h ⊢
      simp only [Option.getD_some]
      by_cases hf : f' = f
      · subst hf
        rw [lookupA_setA_self]
        rfl
      · rw [lookupA_setA_ne hf]
        simpa using h
  · rw [lookupA_setA_ne hd]
    exact h

theorem uFM_mono {ctx : Ctx} {d f v : Key} {s : RunState} {d' f' : Key}
    (h : (lookupSF s d' f').isSome = true) :
    (lookupSF ((updateFrontMatterM ctx d f v s).1) d' f').isSome = true := by
  cases hv : lookupA d s.vault with
  | some doc =>
    rw [uFM_ok_state ctx d f v s doc hv]
    exact storeToSummary_mono h
  | none =>
    cases hc : ctx.st.create_daily_notes && ctx.createOk d with
    | true =>
      rw [Bool.and_eq_true] at hc
      rw [uFM_create_state ctx d f v s hv hc.1 hc.2]
      exact storeToSummary_mono h
    | false =>
      rw [uFM_fail_state ctx d f v s hv hc]
      exact h

theorem updateFMRows_mono {α : Type} (ctx : Ctx) (field : List Char)
    (sel : α → List Char) :
    ∀ (rows : List (Key × α)) (s : RunState) (d' f' : Key),
      (lookupSF s d' f').isSome = true →
      (lookupSF ((updateFMRows ctx field sel rows s).1) d' f').isSome = true := by
  intro rows
  induction rows with
  | nil => intro s d' f' h; exact h
  | cons p rest ih =>
    intro s d' f' h
    obtain ⟨d, r⟩ := p
    unfold updateFMRows
    by_cases hd : d ∈ IGNORED_DATES
    · rw [if_pos hd]
      exact ih s d' f' h
    · rw [if_neg hd]
      by_cases hv : sel r = str "undefined"
      · rw [if_pos hv]
        exact ih s d' f' h
      · rw [if_neg hv]
        split
        next s1 hupd =>
          have hm := @uFM_mono ctx d field (sel r) s d' f' h
          rw [hupd] at hm
          exact ih s1 d' f' hm
        next s1 e hupd =>
          have hm := @uFM_mono ctx d field (sel r) s d' f' h
          rw [hupd] at hm
          exact hm

theorem updateFMByFieldM_mono {α : Type} (ctx : Ctx)
    (readings : Option (List (Key × α))) (field : List Char)
    (sel : α → List Char) (s : RunState) (d' f' : Key)
    (h : (lookupSF s d' f').isSome = true) :
    (lookupSF ((updateFMByFieldM ctx readings field sel s).1) d' f').isSome
      = true := by
  cases readings with
  | none => exact h
  | some rows => exact updateFMRows_mono ctx field sel rows s d' f' h

theorem updateExerciseRows_mono (ctx : Ctx) :
    ∀ (rows : List (Key × ExerciseDay)) (s : RunState) (d' f' : Key),
      (lookupSF s d' f').isSome = true →
      (lookupSF ((updateExerciseRows ctx rows s).1) d' f').isSome = true := by
  intro rows
  induction rows with
  | nil => intro s d' f' h; exact h
  | cons p rest ih =>
    intro s d' f' h
    obtain ⟨d, day⟩ := p
    unfold updateExerciseRows
    split
    next s1 e h1 =>
      have hs1 : s1.summary = s.summary := by
        have h2 := replaceSectionM_summary ctx d ctx.st.exercise_list_section
          (exerciseListOf day) false s
        rw [h1] at h2
        exact h2
      rw [lookupSF_congr hs1 d' f']
      exact h
    next s1 h1 =>
      have hs1 : s1.summary = s.summary := by
        have h2 := replaceSectionM_summary ctx d ctx.st.exercise_list_section
          (exerciseListOf day) false s
        rw [h1] at h2
        exact h2
      have hP1 : (lookupSF s1 d' f').isSome = true := by
        rw [lookupSF_congr hs1 d' f']
        exact h
      split
      next s2 e h2 =>
        have hm := @uFM_mono ctx d ctx.st.exercise_field
          (ctx.numStr ((jsRound (qDiv60 day.totalDuration) : ℤ) : ℚ)) s1 d' f'
          hP1
        rw [h2] at hm
        exact hm
      next s2 h2 =>
        have hm := @uFM_mono ctx d ctx.st.exercise_field
          (ctx.numStr ((jsRound (qDiv60 day.totalDuration) : ℤ) : ℚ)) s1 d' f'
          hP1
        rw [h2] at hm
        exact ih s2 d' f' hm

theorem updateExerciseM_mono (ctx : Ctx)
    (readings : Option (List (Key × ExerciseDay))) (s : RunState) (d' f' : Key)
    (h : (lookupSF s d' f').isSome = true) :
    (lookupSF ((updateExerciseM ctx readings s).1) d' f').isSome = true := by
  cases readings with
  | none => exact h
  | some rows => exact updateExerciseRows_mono ctx rows s d' f' h

theorem updateTableRows_summary {σ : Type} (ctx : Ctx) (target : List Char)
    (sel : σ → List Char) (header slug : List Char) :
    ∀ (rows : List (Key × List (Nat × σ))) (s : RunState),
      (((updateTableRows ctx target sel header slug rows s).1).summary)
        = s.summary := by
  intro rows
  induction rows with
  | nil => intro s; rfl
  | cons p rest ih =>
    intro s
    obtain ⟨d, samples⟩ := p
    unfold updateTableRows
    split
    next s1 e h1 =>
      have h2 := replaceSectionM_summary ctx d target
        (generateTableFromData ctx samples sel header slug) true s
      rw [h1] at h2
      exact h2
    next s1 h1 =>
      have h2 := replaceSectionM_summary ctx d target
        (generateTableFromData ctx samples sel header slug) true s
      rw [h1] at h2
      exact (ih s1).trans h2

theorem updateDailyTablesM_mono {σ : Type} (ctx : Ctx)
    (readings : Option (List (Key × List (Nat × σ)))) (target : List Char)
    (sel : σ → List Char) (header slug : List Char) (s : RunState)
    (d' f' : Key) (h : (lookupSF s d' f').isSome = true) :
    (lookupSF ((updateDailyTablesM ctx readings target sel header slug s).1)
        d' f').isSome = true := by
  cases readings with
  | none => exact h
  | some rows =>
    have hs := updateTableRows_summary ctx target sel header slug rows s
    have h1 : (lookupSF
        ((updateTableRows ctx target sel header slug rows s).1) d' f').isSome
        = true := by
      rw [lookupSF_congr hs d' f']
      exact h
    exact h1

theorem sleepStagesFold_mono (ctx : Ctx) (d : Key) :
    ∀ (stages : List SleepStage) (s : RunState) (t : ℚ) (d' f' : Key),
      (lookupSF s d' f').isSome = true →
      (lookupSF ((sleepStagesFold ctx d stages s t).1) d' f').isSome = true := by
  intro stages
  induction stages with
  | nil => intro s t d' f' h; exact h
  | cons stage rest ih =>
    intro s t d' f' h
    simp only [sleepStagesFold]
    by_cases hst : stage.stageFormat ∈ UNCOUNTED_SLEEP_STAGES
    · rw [if_pos hst]
      exact ih s t d' f' h
    · rw [if_neg hst]
      have harg := ih
        (updateFrontMatterM ctx d stage.stageFormat
          (ctx.numStr
            (List.foldl (fun acc sess => qAdd acc (qDiv60 sess.duration)) 0
              stage.sessions)) s).1
      have hmono := @uFM_mono ctx d stage.stageFormat
        (ctx.numStr
          (List.foldl (fun acc sess => qAdd acc (qDiv60 sess.duration)) 0
            stage.sessions))
        s d' f' h
      exact harg _ d' f' hmono

theorem updateSleepRows_mono (ctx : Ctx) :
    ∀ (rows : List (Key × SleepDay)) (s : RunState) (d' f' : Key),
      (lookupSF s d' f').isSome = true →
      (lookupSF (updateSleepRows ctx rows s) d' f').isSome = true := by
  intro rows
  induction rows with
  | nil => intro s d' f' h; exact h
  | cons p rest ih =>
    intro s d' f' h
    obtain ⟨d, day⟩ := p
    unfold updateSleepRows
    by_cases hd : d ∈ IGNORED_DATES
    · rw [if_pos hd]
      exact ih s d' f' h
    · rw [if_neg hd]
      have hmono := @uFM_mono ctx d ctx.st.total_sleep_field
        (ctx.numStr (sleepStagesFold ctx d day.stage s 0).2)
        (sleepStagesFold ctx d day.stage s 0).1 d' f'
        (sleepStagesFold_mono ctx d day.stage s 0 d' f' h)
      exact ih _ d' f' hmono

theorem updateSleepM_mono (ctx : Ctx)
    (readings : Option (List (Key × SleepDay))) (s : RunState) (d' f' : Key)
    (h : (lookupSF s d' f').isSome = true) :
    (lookupSF ((updateSleepM ctx readings s).1) d' f').isSome = true := by
  cases readings with
  | none => exact h
  | some rows => exact updateSleepRows_mono ctx rows s d' f' h

theorem flushSummaryEntries_summary (ctx : Ctx) :
    ∀ (entries : List (Key × List (Key × List Char))) (s : RunState),
      (flushSummaryEntries ctx entries s).summary = s.summary := by
  intro entries
  induction entries with
  | nil => intro s; rfl
  | cons p rest ih =>
    intro s
    obtain ⟨d, daily⟩ := p
    unfold flushSummaryEntries
    exact (ih _).trans
      (replaceSectionM_summary ctx d ctx.st.summary_section
        (summaryBlockOf daily) false s)

theorem updateSummaryM_mono (ctx : Ctx) (s : RunState) (d' f' : Key)
    (h : (lookupSF s d' f').isSome = true) :
    (lookupSF ((updateSummaryM ctx s).1) d' f').isSome = true := by
  unfold updateSummaryM
  split
  · exact h
  · have hs := flushSummaryEntries_summary ctx s.summary s
    have h1 : (lookupSF (flushSummaryEntries ctx s.summary s) d' f').isSome
        = true := by
      rw [lookupSF_congr hs d' f']
      exact h
    exact h1

theorem andThen_mono (P : RunState → Prop) (r : RunState × Option Err)
    (g : RunState → RunState × Option Err)
    (hr : P r.1) (hg : ∀ t, P t → P (g t).1) : P (andThen r g).1 := by
  obtain ⟨t, err⟩ := r
  cases err with
  | none => exact hg t hr
  | some e => exact hr

/-- Claim C6 (amended): the run summary is plugin-scoped, not run-scoped:
it is never cleared after a run, so every date/field pair recorded in it
persists through any later run (values may be overwritten, entries are
never removed), and the flush at the end of a later run emits fields
written during earlier runs as well. -/
theorem summary_persists_across_runs (ctx : Ctx) (data : SensorData)
    (s : RunState) (d f : Key)
    (h : (lookupSF s d f).isSome = true) :
    (lookupSF (runSyncM ctx data s).1 d f).isSome = true := by
  unfold runSyncM
  refine andThen_mono (fun t => (lookupSF t d f).isSome = true) _ _
    (updateFMByFieldM_mono ctx data.calories ctx.st.calorie_field _ s d f h)
    (fun t1 h1 => ?_)
  refine andThen_mono (fun t => (lookupSF t d f).isSome = true) _ _
    (updateExerciseM_mono ctx data.exercise t1 d f h1) (fun t2 h2 => ?_)
  refine andThen_mono (fun t => (lookupSF t d f).isSome = true) _ _
    (updateDailyTablesM_mono ctx data.heart ctx.st.heartrate_section _ _ _ t2
      d f h2)
    (fun t3 h3 => ?_)
  refine andThen_mono (fun t => (lookupSF t d f).isSome = true) _ _
    (updateFMByFieldM_mono ctx data.hydration ctx.st.hydration_field _ t3 d f
      h3)
    (fun t4 h4 => ?_)
  refine andThen_mono (fun t => (lookupSF t d f).isSome = true) _ _
    (updateDailyTablesM_mono ctx data.oxygen ctx.st.blood_oxygen_section _ _ _
      t4 d f h4)
    (fun t5 h5 => ?_)
  refine andThen_mono (fun t => (lookupSF t d f).isSome = true) _ _
    (updateSleepM_mono ctx data.sleep t5 d f h5) (fun t6 h6 => ?_)
  refine andThen_mono (fun t => (lookupSF t d f).isSome = true) _ _
    (updateFMByFieldM_mono ctx data.steps ctx.st.steps_field _ t6 d f h6)
    (fun t7 h7 => ?_)
  refine andThen_mono (fun t => (lookupSF t d f).isSome = true) _ _
    (updateFMByFieldM_mono ctx data.weight ctx.st.weight_field _ t7 d f h7)
    (fun t8 h8 => ?_)
  exact updateSummaryM_mono ctx t8 d f h8

/-- A state whose run summary already holds a field from an earlier run. -/
def stateSum : RunState := ⟨[], [], [(dateA, [(str "Cal", str "5")])]⟩

theorem summary_persists_witness :
    (lookupSF stateSum dateA (str "Cal")).isSome = true ∧
    (lookupSF (runSyncM ctx0 noneData stateSum).1 dateA
        (str "Cal")).isSome = true :=
  ⟨by decide,
   summary_persists_across_runs ctx0 noneData stateSum dateA (str "Cal")
     (by decide)⟩

/-- Claim C6 counterexample: two consecutive runs over the same state — run
one writes only the calorie field, run two writes only the steps field.
At the end of run two the summary still contains the calorie field of run
one, and the summary section flushed into the note during run two contains
both fields — not only the fields written during the second run. -/
theorem summary_not_run_scoped_cex :
    lookupSF
        (runSyncM ctx0 { noneData with steps := some [(dateA, ⟨100⟩)] }
          (runSyncM ctx0 { noneData with calories := some [(dateA, ⟨5⟩)] }
            stateS).1).1
        dateA (str "Cal") = some (str "5") ∧
    (lookupA dateA
        ((runSyncM ctx0 { noneData with steps := some [(dateA, ⟨100⟩)] }
          (runSyncM ctx0 { noneData with calories := some [(dateA, ⟨5⟩)] }
            stateS).1).1).vault).map Doc.body
      = some (str "# S\n\n**Cal**:: 5\n**Steps**:: 100\n") := by
  decide

/-!  ### Claim C8: idempotence of metadata writes -/

theorem storeToSummary_idem (d f v : Key) (s : RunState) :
    storeToSummary d f v (storeToSummary d f v s) = storeToSummary d f v s := by
  unfold storeToSummary
  simp only [lookupA_setA_self, Option.getD_some, setA_overwrite]

theorem uFM_idem (ctx : Ctx) (d f v : Key) (s : RunState) :
    updateFrontMatterM ctx d f v (updateFrontMatterM ctx d f v s).1
      = updateFrontMatterM ctx d f v s := by
  cases hv : lookupA d s.vault with
  | some doc =>
    rw [uFM_ok_state ctx d f v s doc hv]
    have hv2 : lookupA d ((storeToSummary d f v
        { s with
          vault := setA d { doc with fm := setA f v doc.fm } s.vault }).vault)
        = some { doc with fm := setA f v doc.fm } := by
      show lookupA d (setA d { doc with fm := setA f v doc.fm } s.vault) = _
      exact lookupA_setA_self _ _ _
    rw [uFM_ok_state ctx d f v _ _ hv2]
    simp only [storeToSummary, lookupA_setA_self, Option.getD_some,
      setA_overwrite]
  | none =>
    cases hc : ctx.st.create_daily_notes && ctx.createOk d with
    | false =>
      rw [uFM_fail_state ctx d f v s hv hc]
      exact uFM_fail_state ctx d f v s hv hc
    | true =>
      rw [Bool.and_eq_true] at hc
      rw [uFM_create_state ctx d f v s hv hc.1 hc.2]
      have hv2 : lookupA d ((storeToSummary d f v
          { s with
            vault := setA d ⟨setA f v [], []⟩ (setA d ⟨[], []⟩ s.vault) }).vault)
          = some (⟨setA f v [], []⟩ : Doc) := by
        show lookupA d (setA d (⟨setA f v [], []⟩ : Doc)
          (setA d ⟨[], []⟩ s.vault)) = _
        exact lookupA_setA_self _ _ _
      rw [uFM_ok_state ctx d f v _ _ hv2]
      simp only [storeToSummary, lookupA_setA_self, Option.getD_some,
        setA_overwrite]

theorem uFM_success_post {ctx : Ctx} {d f v : Key} {s s2 : RunState}
    (h : updateFrontMatterM ctx d f v s = (s2, none)) :
    docFieldOf s2 d f = some (some v) ∧ lookupSF s2 d f = some v := by
  cases hv : lookupA d s.vault with
  | some doc =>
    rw [uFM_ok_state ctx d f v s doc hv] at h
    injection h with h1 h2
    subst h1
    constructor
    · simp [docFieldOf, storeToSummary, lookupA_setA_self]
    · simp [lookupSF, storeToSummary, lookupA_setA_self]
  | none =>
    cases hc : ctx.st.create_daily_notes && ctx.createOk d with
    | false =>
      rw [uFM_fail_state ctx d f v s hv hc] at h
      injection h with h1 h2
      exact absurd h2 (by simp)
    | true =>
      rw [Bool.and_eq_true] at hc
      rw [uFM_create_state ctx d f v s hv hc.1 hc.2] at h
      injection h with h1 h2
      subst h1
      constructor
      · simp [docFieldOf, storeToSummary, lookupA_setA_self]
      · simp [lookupSF, storeToSummary, lookupA_setA_self]

theorem uFM_fix {ctx : Ctx} {d f v : Key} {s : RunState}
    (hdoc : docFieldOf s d f = some (some v))
    (hsum : lookupSF s d f = some v) :
    updateFrontMatterM ctx d f v s = (s, none) := by
  unfold docFieldOf at hdoc
  cases hv : lookupA d s.vault with
  | none =>
    rw [hv] at hdoc
    simp at hdoc
  | some doc =>
    rw [hv] at hdoc
    simp only [Option.map_some'] at hdoc
    injection hdoc with hdoc
    rw [uFM_ok_state ctx d f v s doc hv]
    rw [setA_id hdoc]
    rw [show ({ doc with fm := doc.fm } : Doc) = doc from rfl]
    rw [setA_id hv]
    rw [show ({ s with vault := s.vault } : RunState) = s from rfl]
    unfold lookupSF at hsum
    cases hs : lookupA d s.summary with
    | none =>
      rw [hs] at hsum
      simp at hsum
    | some m =>
      rw [hs] at hsum
      simp only [Option.some_bind] at hsum
      unfold storeToSummary
      rw [hs]
      simp only [Option.getD_some]
      rw [setA_id hsum, setA_id hs]

theorem updateFMRows_keyframe_at {α : Type} (ctx : Ctx) (field : List Char)
    (sel : α → List Char) {d : Key} (rows : List (Key × α)) (s : RunState)
    (hd : d ∉ rows.map Prod.fst) :
    docFieldOf ((updateFMRows ctx field sel rows s).1) d field
      = docFieldOf s d field ∧
    lookupSF ((updateFMRows ctx field sel rows s).1) d field
      = lookupSF s d field := by
  have hcond : ∀ p ∈ rows, p.1 ∈ IGNORED_DATES ∨ p.1 ≠ d := by
    intro p hp
    right
    intro hpd
    exact hd (hpd ▸ List.mem_map_of_mem Prod.fst hp)
  obtain ⟨h1, h2⟩ := updateFMRows_keyframe ctx field sel rows s hcond
  constructor
  · unfold docFieldOf
    rw [h1]
  · unfold lookupSF
    rw [h2]

theorem updateFMRows_post {α : Type} (ctx : Ctx) (field : List Char)
    (sel : α → List Char) :
    ∀ (rows : List (Key × α)) (s s1 : RunState),
      updateFMRows ctx field sel rows s = (s1, none) →
      (rows.map Prod.fst).Nodup →
      ∀ d r, (d, r) ∈ rows → d ∉ IGNORED_DATES → ¬ sel r = str "undefined" →
        docFieldOf s1 d field = some (some (sel r)) ∧
        lookupSF s1 d field = some (sel r) := by
  intro rows
  induction rows with
  | nil =>
    intro s s1 h hnd d r hmem
    exact absurd hmem (by simp)
  | cons p rest ih =>
    intro s s1 h hnd d r hmem hd hv
    obtain ⟨d0, r0⟩ := p
    rw [List.map_cons, List.nodup_cons] at hnd
    obtain ⟨hd0, hndrest⟩ := hnd
    unfold updateFMRows at h
    by_cases hig : d0 ∈ IGNORED_DATES
    · rw [if_pos hig] at h
      rcases List.mem_cons.mp hmem with heq | hmem'
      · obtain ⟨rfl, rfl⟩ : d0 = d ∧ r0 = r :=
          ⟨congrArg Prod.fst heq.symm, congrArg Prod.snd heq.symm⟩
        exact absurd hig hd
      · exact ih s s1 h hndrest d r hmem' hd hv
    · rw [if_neg hig] at h
      by_cases hv0 : sel r0 = str "undefined"
      · rw [if_pos hv0] at h
        rcases List.mem_cons.mp hmem with heq | hmem'
        · obtain ⟨rfl, rfl⟩ : d0 = d ∧ r0 = r :=
            ⟨congrArg Prod.fst heq.symm, congrArg Prod.snd heq.symm⟩
          exact absurd hv0 hv
        · exact ih s s1 h hndrest d r hmem' hd hv
      · rw [if_neg hv0] at h
        split at h
        next s2 hupd =>
          rcases List.mem_cons.mp hmem with heq | hmem'
          · obtain ⟨rfl, rfl⟩ : d0 = d ∧ r0 = r :=
              ⟨congrArg Prod.fst heq.symm, congrArg Prod.snd heq.symm⟩
            obtain ⟨hpd, hps⟩ := uFM_success_post hupd
            have hfr := updateFMRows_keyframe_at ctx field sel rest s2 hd0
            rw [h] at hfr
            exact ⟨hfr.1.trans hpd, hfr.2.trans hps⟩
          · exact ih s2 s1 h hndrest d r hmem' hd hv
        next s2 e hupd =>
          exact absurd (congrArg Prod.snd h) (by simp)

theorem updateFMRows_fixpoint {α : Type} (ctx : Ctx) (field : List Char)
    (sel : α → List Char) :
    ∀ (rows : List (Key × α)) (s1 : RunState),
      (∀ d r, (d, r) ∈ rows → d ∉ IGNORED_DATES →
        ¬ sel r = str "undefined" →
        updateFrontMatterM ctx d field (sel r) s1 = (s1, none)) →
      updateFMRows ctx field sel rows s1 = (s1, none) := by
  intro rows
  induction rows with
  | nil => intro s1 _; rfl
  | cons p rest ih =>
    intro s1 hfix
    obtain ⟨d0, r0⟩ := p
    unfold updateFMRows
    by_cases hig : d0 ∈ IGNORED_DATES
    · rw [if_pos hig]
      exact ih s1 (fun d r hm => hfix d r (List.mem_cons_of_mem _ hm))
    · rw [if_neg hig]
      by_cases hv0 : sel r0 = str "undefined"
      · rw [if_pos hv0]
        exact ih s1 (fun d r hm => hfix d r (List.mem_cons_of_mem _ hm))
      · rw [if_neg hv0]
        rw [hfix d0 r0 (List.mem_cons_self _ _) hig hv0]
        exact ih s1 (fun d r hm => hfix d r (List.mem_cons_of_mem _ hm))

/-- Claim C8: metadata field writes are idempotent: performing the
front-matter update twice in succession (same date, field and value) gives
the same result and state as performing it once; consequently applying the
same date-keyed reading collection a second time to the state produced by
a successful first application changes nothing. -/
theorem setField_idempotent :
    (∀ (ctx : Ctx) (d f v : Key) (s : RunState),
      updateFrontMatterM ctx d f v (updateFrontMatterM ctx d f v s).1
        = updateFrontMatterM ctx d f v s) ∧
    (∀ (α : Type) (ctx : Ctx) (field : List Char) (sel : α → List Char)
        (rows : List (Key × α)) (s s1 : RunState),
      updateFMRows ctx field sel rows s = (s1, none) →
      (rows.map Prod.fst).Nodup →
      updateFMRows ctx field sel rows s1 = (s1, none)) := by
  constructor
  · exact uFM_idem
  · intro α ctx field sel rows s s1 h hnd
    apply updateFMRows_fixpoint
    intro d r hmem hd hv
    obtain ⟨hdoc, hsum⟩ :=
      updateFMRows_post ctx field sel rows s s1 h hnd d r hmem hd hv
    exact uFM_fix hdoc hsum

/-- The state after applying the one-row hydration collection once. -/
def stateHyd : RunState :=
  ⟨[(dateA, ⟨[(str "Hyd", str "1/2")], []⟩)], [],
   [(dateA, [(str "Hyd", str "1/2")])]⟩

theorem setField_idempotent_witness :
    updateFMRows ctx0 (str "Hyd") (fun e => ctx0.numStr e.volume)
        [(dateA, (⟨mkRat 1 2⟩ : HydrationDay))] state0 = (stateHyd, none) ∧
    updateFMRows ctx0 (str "Hyd") (fun e => ctx0.numStr e.volume)
        [(dateA, (⟨mkRat 1 2⟩ : HydrationDay))] stateHyd = (stateHyd, none) ∧
    updateFrontMatterM ctx0 dateA (str "Hyd") (str "1/2")
        (updateFrontMatterM ctx0 dateA (str "Hyd") (str "1/2") state0).1
      = updateFrontMatterM ctx0 dateA (str "Hyd") (str "1/2") state0 :=
  ⟨by decide,
   setField_idempotent.2 HydrationDay ctx0 (str "Hyd")
     (fun e => ctx0.numStr e.volume) [(dateA, ⟨mkRat 1 2⟩)] state0 stateHyd
     (by decide) (by decide),
   setField_idempotent.1 ctx0 dateA (str "Hyd") (str "1/2") state0⟩

end HassHealth
